import Mathlib

/-! go-tutorial: the authentication core.

A shallow embedding of `internal/domain/user.go`, `internal/usecase/auth_usecase.go`
and `internal/delivery/http/middleware.go`, followed by theorems about
registration, login, token parsing and the bearer-token middleware.

Conventions of the embedding:

* Go's `uint` is a natural number below `2 ^ 64`; `time.Time` is a number of
  nanoseconds since the Unix epoch; `time.Duration` is a number of nanoseconds.
* a Go `string` is a Lean `String`; an `error` is a value of `GoError`, and a
  nilable result (`*User`, `error`) is an `Option`.
* the collaborators the repository does not contain (the store behind
  `UserRepository`, `bcrypt`, the HMAC, base64 and JSON text layers used by
  `golang-jwt`) are parameters; the control flow of `jwt.Parse` is written out.
* the store is threaded explicitly, together with a log of the repository
  methods that were called.
-/

namespace GoTutorial

/-! ## Errors -/

/-- Go `error` values that can reach the authentication core. The first two are the
sentinels declared in `auth_usecase.go`; `ErrSignatureInvalid` is the sentinel of the
JWT package returned by the key callback; `jwt` stands for the errors built by
`jwt.Parse`; `other` is any error value of a collaborator (store, bcrypt). -/
inductive GoError where
  | ErrEmailExists
  | ErrInvalidCredential
  | ErrSignatureInvalid
  | jwt (kind : String)
  | other (msg : String)
  deriving DecidableEq, Repr

/-! ## internal/domain/user.go -/

namespace domain

/-- The zero value of `time.Time` (January 1, year 1, UTC) in Unix nanoseconds. -/
def zeroTime : Int := -62135596800 * 1000000000

/-- The struct `User`. -/
structure User where
  ID : Nat
  Email : String
  PasswordHash : String
  CreatedAt : Int
  UpdatedAt : Int
  deriving DecidableEq, Repr

/-- The interface `UserRepository` over a store state `σ`. `Create` receives a
`*User` and may write to it (the assigned id and timestamps), so it returns the
record as it stands after the call; the two lookups are queries and leave the store
as it is. -/
structure UserRepository (σ : Type) where
  Create : User → σ → (User × Option GoError) × σ
  GetByEmail : String → σ → Option User × Option GoError
  GetByID : Nat → σ → Option User × Option GoError

end domain

open domain

/-! ## The store as seen by the use case -/

/-- A call of a `UserRepository` method. -/
inductive RepoCall where
  | Create (user : User)
  | GetByEmail (email : String)
  | GetByID (id : Nat)
  deriving DecidableEq, Repr

/-- The store state together with the repository calls made so far, oldest first. -/
structure World (σ : Type) where
  store : σ
  calls : List RepoCall

namespace World

variable {σ : Type}

/-- Method call `repo.GetByEmail(email)`. -/
def GetByEmail (w : World σ) (repo : UserRepository σ) (email : String) :
    (Option User × Option GoError) × World σ :=
  (repo.GetByEmail email w.store, { w with calls := w.calls ++ [RepoCall.GetByEmail email] })

/-- Method call `repo.GetByID(id)`. -/
def GetByID (w : World σ) (repo : UserRepository σ) (id : Nat) :
    (Option User × Option GoError) × World σ :=
  (repo.GetByID id w.store, { w with calls := w.calls ++ [RepoCall.GetByID id] })

/-- Method call `repo.Create(user)`. -/
def Create (w : World σ) (repo : UserRepository σ) (user : User) :
    (User × Option GoError) × World σ :=
  let r := repo.Create user w.store
  (r.1, { store := r.2, calls := w.calls ++ [RepoCall.Create user] })

end World

/-! ## JSON numbers and `float64` -/

/-- A JSON number literal, read as `(-1)^neg * coeff * 10^exp10`. -/
structure Number where
  neg : Bool
  coeff : Nat
  exp10 : Int
  deriving DecidableEq, Repr

/-- A finite `float64`, read as `(-1)^neg * mant * 2^exp` with `mant ≤ 2^53`. -/
structure Float64 where
  neg : Bool
  mant : Nat
  exp : Int
  deriving DecidableEq, Repr

/-- Number of binary digits of `n`, by halving at most `fuel` times. -/
def bitLenAux : Nat → Nat → Nat
  | 0, _ => 0
  | fuel + 1, n => if n = 0 then 0 else bitLenAux fuel (n / 2) + 1

/-- Number of binary digits of `n` (`0` for `0`). -/
def bitLen (n : Nat) : Nat := bitLenAux n n

/-- Numerator and denominator of `a / (b * 2^e)`. -/
def scaled (a b : Nat) (e : Int) : Nat × Nat :=
  if 0 ≤ e then (a, b * 2 ^ e.toNat) else (a * 2 ^ (-e).toNat, b)

/-- The `float64` nearest to `a / b` (ties to even), as mantissa and binary exponent;
`none` when the magnitude overflows the `float64` range. The exponent is chosen so
that the mantissa has 53 bits, and is not taken below that of the subnormals. -/
def roundRatio (a b : Nat) : Option (Nat × Int) :=
  if a = 0 then some (0, 0)
  else
    let e0 : Int := (bitLen a : Int) - (bitLen b : Int) - 53
    let q0 := (scaled a b e0).1 / (scaled a b e0).2
    let e1 : Int := if 2 ^ 53 ≤ q0 then e0 + 1 else e0
    let e : Int := if e1 < -1074 then -1074 else e1
    let num := (scaled a b e).1
    let den := (scaled a b e).2
    let q := num / den
    let r := num % den
    let m := if den < 2 * r ∨ (2 * r = den ∧ q % 2 = 1) then q + 1 else q
    if 971 < e ∨ (e = 971 ∧ m = 2 ^ 53) then none else some (m, e)

/-- Conversion of a JSON number literal to `float64`, correctly rounded, as done by the
JSON decoder for a number stored in an `interface{}`; `none` is its range error. -/
def parseFloat64 (n : Number) : Option Float64 :=
  let ab : Nat × Nat :=
    if 0 ≤ n.exp10 then (n.coeff * 10 ^ n.exp10.toNat, 1) else (n.coeff, 10 ^ (-n.exp10).toNat)
  (roundRatio ab.1 ab.2).map fun me => { neg := n.neg, mant := me.1, exp := me.2 }

/-- Integer part of the magnitude of a `float64`. -/
def Float64.truncAbs (f : Float64) : Nat :=
  if 0 ≤ f.exp then f.mant * 2 ^ f.exp.toNat else f.mant / 2 ^ (-f.exp).toNat

/-- The magnitude of a `float64` rounded up to an integer. -/
def Float64.ceilAbs (f : Float64) : Nat :=
  if 0 ≤ f.exp then f.mant * 2 ^ f.exp.toNat
  else (f.mant + 2 ^ (-f.exp).toNat - 1) / 2 ^ (-f.exp).toNat

/-- The largest integer not above a `float64`. -/
def Float64.floor (f : Float64) : Int :=
  if f.neg then -(f.ceilAbs : Int) else (f.truncAbs : Int)

/-- The results of float-to-integer conversions whose value the target type cannot
represent; the Go specification leaves them to the implementation. -/
structure Target where
  uintOfFloat64 : Float64 → Nat
  int64OfFloat64 : Float64 → Int

/-- The Go conversion `uint(f)` of a `float64`: the fraction is discarded; a value
outside the range of `uint` is converted as the target decides. -/
def uintOfFloat64 (T : Target) (f : Float64) : Nat :=
  if f.truncAbs = 0 then 0
  else if f.neg = false ∧ f.truncAbs < 2 ^ 64 then f.truncAbs
  else T.uintOfFloat64 f % 2 ^ 64

/-- A member value of a JSON object as written in a token segment; arrays and nested
objects are kept as their text. -/
inductive JSON where
  | null
  | bool (b : Bool)
  | number (n : Number)
  | string (s : String)
  | compound (raw : String)
  deriving DecidableEq, Repr

/-- A Go value held in an `interface{}` after JSON decoding. -/
inductive Value where
  | nil
  | bool (b : Bool)
  | float64 (f : Float64)
  | string (s : String)
  | compound (raw : String)
  deriving DecidableEq, Repr

/-- Decoding of one JSON value into an `interface{}`. -/
def decodeValue : JSON → Option Value
  | JSON.null => some Value.nil
  | JSON.bool b => some (Value.bool b)
  | JSON.number n => (parseFloat64 n).map Value.float64
  | JSON.string s => some (Value.string s)
  | JSON.compound raw => some (Value.compound raw)

/-- Decoding of the members of a JSON object into a `map[string]interface{}`, kept in
document order. -/
def decodeObject : List (String × JSON) → Option (List (String × Value))
  | [] => some []
  | (k, j) :: rest =>
    match decodeValue j, decodeObject rest with
    | some v, some m => some ((k, v) :: m)
    | _, _ => none

/-- Map index expression `m[key]`: of several members with the same name the last one
written is the one stored. -/
def index (m : List (String × Value)) (key : String) : Option Value :=
  m.reverse.lookup key

/-- The member of a JSON object that decoding stores under `key`: of several members
with the same name, the last one written. -/
def member (obj : List (String × JSON)) (key : String) : Option JSON :=
  obj.reverse.lookup key

/-- JSON encoding of a Go `uint`. -/
def jsonUint (n : Nat) : JSON := JSON.number { neg := false, coeff := n, exp10 := 0 }

/-- JSON encoding of a Go `int64`. -/
def jsonInt64 (i : Int) : JSON :=
  JSON.number { neg := decide (i < 0), coeff := i.natAbs, exp10 := 0 }

/-! ## github.com/golang-jwt/jwt/v5

The hash, base64 and JSON text layers are parameters; the registry of signing
methods, the steps of `Parse` and the validation of the time claims follow the
library. -/

namespace jwt

/-- Hash functions of the HMAC, RSA and ECDSA signing methods. -/
inductive Hash where
  | SHA256
  | SHA384
  | SHA512
  deriving DecidableEq, Repr

/-- The registered signing methods, by implementing type: `HMAC` is
`*SigningMethodHMAC` (HS256, HS384, HS512), and so on; `none` is the unsecured
method. -/
inductive SigningMethod where
  | HMAC (h : Hash)
  | RSA (h : Hash)
  | RSAPSS (h : Hash)
  | ECDSA (h : Hash)
  | Ed25519
  | none
  deriving DecidableEq, Repr

/-- The variable `SigningMethodHS256`. -/
def SigningMethodHS256 : SigningMethod := SigningMethod.HMAC Hash.SHA256

/-- The method `Alg` of a signing method. -/
def SigningMethod.Alg : SigningMethod → String
  | SigningMethod.HMAC Hash.SHA256 => "HS256"
  | SigningMethod.HMAC Hash.SHA384 => "HS384"
  | SigningMethod.HMAC Hash.SHA512 => "HS512"
  | SigningMethod.RSA Hash.SHA256 => "RS256"
  | SigningMethod.RSA Hash.SHA384 => "RS384"
  | SigningMethod.RSA Hash.SHA512 => "RS512"
  | SigningMethod.RSAPSS Hash.SHA256 => "PS256"
  | SigningMethod.RSAPSS Hash.SHA384 => "PS384"
  | SigningMethod.RSAPSS Hash.SHA512 => "PS512"
  | SigningMethod.ECDSA Hash.SHA256 => "ES256"
  | SigningMethod.ECDSA Hash.SHA384 => "ES384"
  | SigningMethod.ECDSA Hash.SHA512 => "ES512"
  | SigningMethod.Ed25519 => "EdDSA"
  | SigningMethod.none => "none"

/-- All registered signing methods. -/
def signingMethods : List SigningMethod :=
  [SigningMethod.HMAC Hash.SHA256, SigningMethod.HMAC Hash.SHA384, SigningMethod.HMAC Hash.SHA512,
   SigningMethod.RSA Hash.SHA256, SigningMethod.RSA Hash.SHA384, SigningMethod.RSA Hash.SHA512,
   SigningMethod.RSAPSS Hash.SHA256, SigningMethod.RSAPSS Hash.SHA384,
   SigningMethod.RSAPSS Hash.SHA512,
   SigningMethod.ECDSA Hash.SHA256, SigningMethod.ECDSA Hash.SHA384, SigningMethod.ECDSA Hash.SHA512,
   SigningMethod.Ed25519, SigningMethod.none]

/-- The function `GetSigningMethod`: the registered method with the given `alg` name. -/
def GetSigningMethod (alg : String) : Option SigningMethod :=
  signingMethods.find? fun m => m.Alg == alg

/-- The primitives below the token format. `EncodeSegment`/`DecodeSegment` are the
unpadded base64url codec; `Marshal`/`Unmarshal` write and read the text of a JSON
object; `hmac h key message` is the keyed hash; `signOther`/`verifyOther` are the
signature schemes of the methods that are not HMAC (arguments: method, signing
string, signature for `verifyOther`, key). -/
structure Lib where
  EncodeSegment : String → String
  DecodeSegment : String → Option String
  Marshal : List (String × JSON) → String
  Unmarshal : String → Option (List (String × JSON))
  hmac : Hash → String → String → String
  signOther : SigningMethod → String → String → Except GoError String
  verifyOther : SigningMethod → String → String → String → Bool

/-- The claims of a token: `MapClaims`, or another implementation of `Claims`. -/
inductive Claims where
  | MapClaims (m : List (String × Value))
  | custom (raw : String)
  deriving DecidableEq, Repr

/-- The struct `Token` as `Parse` builds it. -/
structure Token where
  Raw : String
  Method : SigningMethod
  Header : List (String × Value)
  Claims : Claims
  Signature : String
  Valid : Bool
  deriving DecidableEq, Repr

/-- The struct `Token` as `NewWithClaims` builds it: the claims are still Go values
to be marshalled, written here as the JSON members they are marshalled to. -/
structure NewToken where
  Method : SigningMethod
  Header : List (String × JSON)
  Claims : List (String × JSON)
  deriving DecidableEq, Repr

/-- The function `NewWithClaims`. -/
def NewWithClaims (method : SigningMethod) (claims : List (String × JSON)) : NewToken :=
  { Method := method,
    Header := [("typ", JSON.string "JWT"), ("alg", JSON.string method.Alg)],
    Claims := claims }

/-- The members of a Go map in the order `json.Marshal` writes them: sorted by key. -/
def sortKeys (m : List (String × JSON)) : List (String × JSON) :=
  m.insertionSort fun a b => a.1.data ≤ b.1.data

/-- The method `Sign` of a signing method. -/
def SigningMethod.Sign (L : Lib) (m : SigningMethod) (signingString key : String) :
    Except GoError String :=
  match m with
  | SigningMethod.HMAC h => Except.ok (L.hmac h key signingString)
  | other => L.signOther other signingString key

/-- The method `Verify` of a signing method; the HMAC methods recompute the keyed hash
and compare. -/
def SigningMethod.Verify (L : Lib) (m : SigningMethod) (signingString sig key : String) :
    Bool :=
  match m with
  | SigningMethod.HMAC h => sig == L.hmac h key signingString
  | other => L.verifyOther other signingString sig key

/-- The method `SigningString` of a token: encoded header, a dot, encoded claims. -/
def NewToken.SigningString (L : Lib) (t : NewToken) : String :=
  L.EncodeSegment (L.Marshal (sortKeys t.Header)) ++ "." ++
    L.EncodeSegment (L.Marshal (sortKeys t.Claims))

/-- The method `SignedString` of a token. -/
def NewToken.SignedString (L : Lib) (t : NewToken) (key : String) : Except GoError String :=
  match t.Method.Sign L (t.SigningString L) key with
  | Except.error err => Except.error err
  | Except.ok sig => Except.ok (t.SigningString L ++ "." ++ L.EncodeSegment sig)

/-- The call `strings.Split(tokenString, ".")`. -/
def splitDots (tokenString : String) : List String :=
  (tokenString.data.splitOn '.').map String.mk

/-- Reading of a header or claims segment into a `map[string]interface{}`. -/
def decodeMap (L : Lib) (segment : String) : Option (List (String × Value)) :=
  ((L.DecodeSegment segment).bind L.Unmarshal).bind decodeObject

/-- The seconds of the `NumericDate` built from a `float64` claim: the value rounded
down to a whole second. -/
def numericDateSeconds (T : Target) (f : Float64) : Int :=
  if f.truncAbs < 2 ^ 63 then f.floor else T.int64OfFloat64 f

/-- The method `parseNumericDate` of `MapClaims`: an absent or zero claim is no date,
a number is a date, anything else is an error. -/
def parseNumericDate (T : Target) (m : List (String × Value)) (key : String) :
    Except GoError (Option Int) :=
  match index m key with
  | Option.none => Except.ok Option.none
  | some (Value.float64 f) =>
    if f.mant = 0 then Except.ok Option.none else Except.ok (some (numericDateSeconds T f))
  | some _ => Except.error (GoError.jwt "invalid type for claim")

/-- Check `verifyExpiresAt` of the validator (no leeway, `exp` not required): the
token is good while `now` is before the expiry. -/
def verifyExpiresAt (T : Target) (m : List (String × Value)) (now : Int) : Option GoError :=
  match parseNumericDate T m "exp" with
  | Except.error err => some err
  | Except.ok Option.none => Option.none
  | Except.ok (some exp) =>
    if now < exp * 1000000000 then Option.none else some (GoError.jwt "token is expired")

/-- Check `verifyNotBefore` of the validator (no leeway, `nbf` not required). -/
def verifyNotBefore (T : Target) (m : List (String × Value)) (now : Int) : Option GoError :=
  match parseNumericDate T m "nbf" with
  | Except.error err => some err
  | Except.ok Option.none => Option.none
  | Except.ok (some nbf) =>
    if now < nbf * 1000000000 then some (GoError.jwt "token is not valid yet") else Option.none

/-- The method `Validate` of the default validator on `MapClaims`: expiry and
not-before are checked; issued-at, audience, issuer and subject are not, since no
parser option asks for them. -/
def Validate (T : Target) (now : Int) (m : List (String × Value)) : Option GoError :=
  match verifyExpiresAt T m now, verifyNotBefore T m now with
  | Option.none, Option.none => Option.none
  | _, _ => some (GoError.jwt "token has invalid claims")

/-- The type `Keyfunc`: the callback that selects the verification key. -/
abbrev Keyfunc := Token → Except GoError String

/-- The last steps of `ParseWithClaims`, once the token is decoded: key lookup,
signature check, validation of the claims. -/
def verifyDecoded (L : Lib) (T : Target) (now : Int) (keyFunc : Keyfunc) (text : String)
    (token : Token) (claims : List (String × Value)) : Except GoError Token :=
  match keyFunc token with
  | Except.error _ => Except.error (GoError.jwt "token is unverifiable")
  | Except.ok key =>
    if token.Method.Verify L text token.Signature key = false then
      Except.error (GoError.jwt "token signature is invalid")
    else
      match Validate T now claims with
      | some _ => Except.error (GoError.jwt "token has invalid claims")
      | Option.none => Except.ok { token with Valid := true }

/-- The function `Parse` (a default parser's `ParseWithClaims` into `MapClaims`), at
time `now`. The result is the error, or else the token, which is then never nil. The
steps: three dot-separated segments; header and claims decode to JSON objects; the
header names a registered method in `alg`; the signature segment decodes; then
`verifyDecoded`. -/
def Parse (L : Lib) (T : Target) (now : Int) (tokenString : String) (keyFunc : Keyfunc) :
    Except GoError Token :=
  match splitDots tokenString with
  | [p0, p1, p2] =>
    match decodeMap L p0, decodeMap L p1 with
    | some header, some claims =>
      match index header "alg" with
      | some (Value.string alg) =>
        match GetSigningMethod alg with
        | Option.none => Except.error (GoError.jwt "token is unverifiable")
        | some method =>
          match L.DecodeSegment p2 with
          | Option.none => Except.error (GoError.jwt "token is malformed")
          | some sig =>
            verifyDecoded L T now keyFunc (p0 ++ "." ++ p1)
              { Raw := tokenString, Method := method, Header := header,
                Claims := Claims.MapClaims claims, Signature := sig, Valid := false }
              claims
      | _ => Except.error (GoError.jwt "token is unverifiable")
    | _, _ => Except.error (GoError.jwt "token is malformed")
  | _ => Except.error (GoError.jwt "token is malformed")

end jwt

/-! ## golang.org/x/crypto/bcrypt (parameter) -/

/-- The two functions of package `bcrypt` used by the use case.
`GenerateFromPassword password cost entropy` draws its salt from `entropy`. -/
structure Bcrypt where
  GenerateFromPassword : String → Nat → Nat → Except GoError String
  CompareHashAndPassword : String → String → Option GoError

/-- The constant `bcrypt.DefaultCost`. -/
def Bcrypt.DefaultCost : Nat := 10

/-! ## internal/usecase/auth_usecase.go: construction and registration -/

namespace usecase

/-- The constant `time.Hour`, in nanoseconds. -/
def Hour : Int := 3600 * 1000000000

/-- The struct `authUsecase`. -/
structure authUsecase (σ : Type) where
  userRepo : UserRepository σ
  jwtKey : String
  ttl : Int

/-- The constructor `NewAuthUsecase`; `getenv` is `os.Getenv`. -/
def NewAuthUsecase {σ : Type} (getenv : String → String) (userRepo : UserRepository σ) :
    authUsecase σ :=
  let secret := getenv "JWT_SECRET"
  let secret := if secret = "" then "dev-secret-key" else secret
  { userRepo := userRepo, jwtKey := secret, ttl := 24 * Hour }

/-- The method `Register`. `entropy` is the randomness `bcrypt` consumes. -/
def authUsecase.Register {σ : Type} (bc : Bcrypt) (u : authUsecase σ) (email password : String)
    (entropy : Nat) (w : World σ) : (Option User × Option GoError) × World σ :=
  let r := w.GetByEmail u.userRepo email
  match r.1.1 with
  | some _ => ((none, some GoError.ErrEmailExists), r.2)
  | none =>
    match bc.GenerateFromPassword password Bcrypt.DefaultCost entropy with
    | Except.error err => ((none, some err), r.2)
    | Except.ok hash =>
      let user : User :=
        { ID := 0, Email := email, PasswordHash := hash,
          CreatedAt := zeroTime, UpdatedAt := zeroTime }
      let c := r.2.Create u.userRepo user
      match c.1.2 with
      | some err => ((none, some err), c.2)
      | none => ((some c.1.1, none), c.2)

/-- The result of a call that can panic. -/
inductive Outcome (α : Type) where
  | returned (a : α)
  | panicked (msg : String)
  deriving DecidableEq, Repr

/-- The method `time.Time.Unix`: whole seconds since the epoch. -/
def Unix (t : Int) : Int := t / 1000000000

/-- The method `Login`, called at time `now`. A nil user with a nil error from the
store makes `user.PasswordHash` a nil pointer dereference. -/
def authUsecase.Login {σ : Type} (bc : Bcrypt) (L : jwt.Lib) (u : authUsecase σ)
    (email password : String) (now : Int) (w : World σ) :
    Outcome (String × Option GoError) × World σ :=
  let r := w.GetByEmail u.userRepo email
  match r.1.2 with
  | some _ => (Outcome.returned ("", some GoError.ErrInvalidCredential), r.2)
  | none =>
    match r.1.1 with
    | none => (Outcome.panicked "invalid memory address or nil pointer dereference", r.2)
    | some user =>
      match bc.CompareHashAndPassword user.PasswordHash password with
      | some _ => (Outcome.returned ("", some GoError.ErrInvalidCredential), r.2)
      | none =>
        let claims : List (String × JSON) :=
          [("sub", jsonUint user.ID),
           ("email", JSON.string user.Email),
           ("exp", jsonInt64 (Unix (now + u.ttl))),
           ("iat", jsonInt64 (Unix now))]
        let token := jwt.NewWithClaims jwt.SigningMethodHS256 claims
        match token.SignedString L u.jwtKey with
        | Except.error err => (Outcome.returned ("", some err), r.2)
        | Except.ok tokenStr => (Outcome.returned (tokenStr, none), r.2)

/-- The key callback that `ParseToken` hands to `jwt.Parse`. -/
def authUsecase.keyFunc {σ : Type} (u : authUsecase σ) : jwt.Keyfunc := fun t =>
  match t.Method with
  | jwt.SigningMethod.HMAC _ => Except.ok u.jwtKey
  | _ => Except.error GoError.ErrSignatureInvalid

/-- The method `ParseToken`, called at time `now`. -/
def authUsecase.ParseToken {σ : Type} (L : jwt.Lib) (T : Target) (u : authUsecase σ)
    (now : Int) (tokenStr : String) : Nat × Option GoError :=
  match jwt.Parse L T now tokenStr u.keyFunc with
  | Except.error _ => (0, some GoError.ErrInvalidCredential)
  | Except.ok token =>
    if token.Valid = false then (0, some GoError.ErrInvalidCredential)
    else
      match token.Claims with
      | jwt.Claims.MapClaims claims =>
        match index claims "sub" with
        | some (Value.float64 sub) => (uintOfFloat64 T sub, none)
        | _ => (0, some GoError.ErrInvalidCredential)
      | _ => (0, some GoError.ErrInvalidCredential)

/-- Expected form of the signing string of a token `Login` issues for a stored user:
the marshalled header and claims, encoded and joined by a dot. -/
def signingInput (L : jwt.Lib) (user : User) (iat exp : Int) : String :=
  L.EncodeSegment (L.Marshal [("alg", JSON.string "HS256"), ("typ", JSON.string "JWT")]) ++ "." ++
    L.EncodeSegment (L.Marshal [("email", JSON.string user.Email), ("exp", jsonInt64 exp),
      ("iat", jsonInt64 iat), ("sub", jsonUint user.ID)])

/-- Expected result of a successful `Login`, written out: the signing string, a dot,
and the encoded HMAC-SHA256 tag of the signing string under the key. -/
def issued (L : jwt.Lib) (key : String) (user : User) (iat exp : Int) : String :=
  signingInput L user iat exp ++ "." ++
    L.EncodeSegment (L.hmac jwt.Hash.SHA256 key (signingInput L user iat exp))

/-- The text layers read back what they wrote for the token issued for `user`: each
of the three segments decodes to what was encoded and holds no dot, and the header and
claims unmarshal to what was marshalled. -/
def ReadsBack (L : jwt.Lib) (key : String) (user : User) (iat exp : Int) : Prop :=
  L.DecodeSegment
      (L.EncodeSegment (L.Marshal [("alg", JSON.string "HS256"), ("typ", JSON.string "JWT")]))
    = some (L.Marshal [("alg", JSON.string "HS256"), ("typ", JSON.string "JWT")]) ∧
  L.Unmarshal (L.Marshal [("alg", JSON.string "HS256"), ("typ", JSON.string "JWT")])
    = some [("alg", JSON.string "HS256"), ("typ", JSON.string "JWT")] ∧
  L.DecodeSegment
      (L.EncodeSegment (L.Marshal [("email", JSON.string user.Email), ("exp", jsonInt64 exp),
        ("iat", jsonInt64 iat), ("sub", jsonUint user.ID)]))
    = some (L.Marshal [("email", JSON.string user.Email), ("exp", jsonInt64 exp),
        ("iat", jsonInt64 iat), ("sub", jsonUint user.ID)]) ∧
  L.Unmarshal (L.Marshal [("email", JSON.string user.Email), ("exp", jsonInt64 exp),
        ("iat", jsonInt64 iat), ("sub", jsonUint user.ID)])
    = some [("email", JSON.string user.Email), ("exp", jsonInt64 exp),
        ("iat", jsonInt64 iat), ("sub", jsonUint user.ID)] ∧
  L.DecodeSegment (L.EncodeSegment (L.hmac jwt.Hash.SHA256 key (signingInput L user iat exp)))
    = some (L.hmac jwt.Hash.SHA256 key (signingInput L user iat exp)) ∧
  '.' ∉ (L.EncodeSegment
      (L.Marshal [("alg", JSON.string "HS256"), ("typ", JSON.string "JWT")])).data ∧
  '.' ∉ (L.EncodeSegment (L.Marshal [("email", JSON.string user.Email), ("exp", jsonInt64 exp),
        ("iat", jsonInt64 iat), ("sub", jsonUint user.ID)])).data ∧
  '.' ∉ (L.EncodeSegment (L.hmac jwt.Hash.SHA256 key (signingInput L user iat exp))).data

instance (L : jwt.Lib) (key : String) (user : User) (iat exp : Int) :
    Decidable (ReadsBack L key user iat exp) := by
  unfold ReadsBack
  infer_instance

/-- The method `GetUserByID`. -/
def authUsecase.GetUserByID {σ : Type} (u : authUsecase σ) (id : Nat) (w : World σ) :
    (Option User × Option GoError) × World σ :=
  w.GetByID u.userRepo id

end usecase

/-! ## The credential store of the specification -/

namespace store

/-- Modelled from the spec: the credential store (the repository implementation,
package `postgresrepo`, is not among the sources). It holds the user records, the
next identifier to assign and the time it stamps on new records. -/
structure Store where
  users : List User
  nextID : Nat
  clock : Int
  deriving DecidableEq, Repr

/-- Modelled from the spec: `create(user) -> ok | error(DuplicateEmail)`. The store
enforces email uniqueness and assigns the id and the timestamps. -/
def Create (user : User) (s : Store) : (User × Option GoError) × Store :=
  if s.users.any (fun x => x.Email == user.Email) then
    ((user, some (GoError.other "duplicate email")), s)
  else
    let stored : User :=
      { user with ID := s.nextID, CreatedAt := s.clock, UpdatedAt := s.clock }
    ((stored, none), { s with users := s.users ++ [stored], nextID := s.nextID + 1 })

/-- Modelled from the spec: `getByEmail(email) -> user | NotFound`. -/
def GetByEmail (email : String) (s : Store) : Option User × Option GoError :=
  match s.users.find? (fun x => x.Email == email) with
  | some user => (some user, none)
  | none => (none, some (GoError.other "record not found"))

/-- Modelled from the spec: `getByID(id) -> user | NotFound`. -/
def GetByID (id : Nat) (s : Store) : Option User × Option GoError :=
  match s.users.find? (fun x => x.ID == id) with
  | some user => (some user, none)
  | none => (none, some (GoError.other "record not found"))

/-- Modelled from the spec: the credential store as a `UserRepository`. -/
def repo : UserRepository Store :=
  { Create := Create, GetByEmail := GetByEmail, GetByID := GetByID }

/-- The number of records the store holds for an email. -/
def count (email : String) (s : Store) : Nat :=
  (s.users.filter (fun x => x.Email == email)).length

end store

/-! ## Package strings -/

namespace strings

/-- The function `strings.HasPrefix`. -/
def HasPrefix (s pre : String) : Bool := pre.data.isPrefixOf s.data

/-- The function `strings.TrimPrefix`. -/
def TrimPrefix (s pre : String) : String :=
  if HasPrefix s pre then String.mk (s.data.drop pre.data.length) else s

end strings

/-! ## internal/delivery/http/middleware.go -/

namespace httpdelivery

/-- The interface `usecase.AuthUsecase`, as far as the middleware uses it. -/
structure AuthUsecase where
  ParseToken : String → Nat × Option GoError

/-- What a handler does besides writing to its context: calls of the use case and of
`c.Next()`. -/
inductive Call where
  | ParseToken (tokenStr : String)
  | Next
  deriving DecidableEq, Repr

/-- The struct `gin.Context`: request headers, the key/value store of the request,
the abort flag, the response written so far (status and the JSON body, which here is
always a one-member `gin.H`), and the calls made so far, oldest first. -/
structure Context where
  Header : List (String × String)
  Keys : List (String × Nat)
  aborted : Bool
  status : Option Nat
  body : Option (String × String)
  calls : List Call
  deriving DecidableEq, Repr

/-- The constant `http.StatusUnauthorized`. -/
def StatusUnauthorized : Nat := 401

namespace Context

/-- The method `GetHeader`: the header value, or the empty string. -/
def GetHeader (c : Context) (key : String) : String := (c.Header.lookup key).getD ""

/-- The method `AbortWithStatusJSON`: abort the chain and write the response. -/
def AbortWithStatusJSON (c : Context) (code : Nat) (obj : String × String) : Context :=
  { c with aborted := true, status := some code, body := some obj }

/-- The method `Set`. -/
def Set (c : Context) (key : String) (value : Nat) : Context :=
  { c with Keys := (key, value) :: c.Keys.filter (fun kv => kv.1 != key) }

/-- The method `Get`. -/
def Get (c : Context) (key : String) : Option Nat := c.Keys.lookup key

/-- The method `Next`: the rest of the handler chain runs. -/
def Next (c : Context) : Context := { c with calls := c.calls ++ [Call.Next] }

end Context

/-- The handler returned by `AuthMiddleware(uc)`. -/
def AuthMiddleware (uc : AuthUsecase) (c : Context) : Context :=
  let h := c.GetHeader "Authorization"
  if strings.HasPrefix h "Bearer " = false then
    c.AbortWithStatusJSON StatusUnauthorized ("error", "missing or invalid Authorization header")
  else
    let tokenStr := strings.TrimPrefix h "Bearer "
    let r := uc.ParseToken tokenStr
    let c := { c with calls := c.calls ++ [Call.ParseToken tokenStr] }
    match r.2 with
    | some _ => c.AbortWithStatusJSON StatusUnauthorized ("error", "invalid token")
    | none => (c.Set "user_id" r.1).Next

/-- The use case `u` behind the interface, for requests handled at time `now`. -/
def ofUsecase {σ : Type} (L : jwt.Lib) (T : Target) (u : usecase.authUsecase σ) (now : Int) :
    AuthUsecase :=
  { ParseToken := u.ParseToken L T now }

end httpdelivery

/-! ## Concrete collaborators for worked examples -/

namespace sample

/-- A text codec that knows the listed documents by name; segments are written as
they are, and the tag of a message is the key and the message with dots replaced. -/
def bookLib (docs : List (String × List (String × JSON))) : jwt.Lib :=
  { EncodeSegment := fun s => s,
    DecodeSegment := fun s => some s,
    Marshal := fun o => ((docs.find? fun d => d.2 == o).map fun d => d.1).getD "?",
    Unmarshal := fun s => docs.lookup s,
    hmac := fun _ key message =>
      String.mk ((key ++ "/" ++ message).data.map fun ch => if ch = '.' then '+' else ch),
    signOther := fun _ _ _ => Except.error (GoError.other "key is of invalid type"),
    verifyOther := fun _ _ _ _ => false }

/-- A password hashing scheme that writes a salt of `entropy` characters, a dollar
sign and the password. -/
def plainBcrypt : Bcrypt :=
  { GenerateFromPassword := fun password _ entropy =>
      if 72 < password.length then Except.error (GoError.other "password too long")
      else Except.ok (String.mk (List.replicate entropy 's') ++ "$" ++ password),
    CompareHashAndPassword := fun hash password =>
      if (hash.data.dropWhile fun ch => ch != '$') == '$' :: password.data then none
      else some (GoError.other "hash mismatch") }

/-- A password of 73 characters, one more than the hashing scheme takes. -/
def longPassword : String := String.mk (List.replicate 73 'p')

/-- A target whose out-of-range conversions give zero. -/
def zeroTarget : Target :=
  { uintOfFloat64 := fun _ => 0, int64OfFloat64 := fun _ => 0 }

/-- A user record. -/
def alice : User :=
  { ID := 1, Email := "a@x.com", PasswordHash := "ss$secret1", CreatedAt := 0, UpdatedAt := 0 }

/-- A store with no record. -/
def emptyStore : store.Store := { users := [], nextID := 1, clock := 0 }

/-- A store holding `alice`. -/
def aliceStore : store.Store := { users := [alice], nextID := 2, clock := 0 }

/-- The credential store as a registration sees it when a concurrent registration for
the same email commits between its lookup and its insert: the lookup finds no record. -/
def staleRepo : UserRepository store.Store :=
  { Create := store.Create,
    GetByEmail := fun _ _ => (none, some (GoError.other "record not found")),
    GetByID := store.GetByID }

/-- The credential store with lookups by email failing on the connection. -/
def downRepo : UserRepository store.Store :=
  { Create := store.Create,
    GetByEmail := fun _ _ => (none, some (GoError.other "connection refused")),
    GetByID := store.GetByID }

/-- A user record whose id is `2^53 + 1`. -/
def bigUser : User :=
  { ID := 9007199254740993, Email := "big@x.com", PasswordHash := "ss$secret1",
    CreatedAt := 0, UpdatedAt := 0 }

/-- A store holding `bigUser`. -/
def bigStore : store.Store := { users := [bigUser], nextID := 9007199254740994, clock := 0 }

/-- A token header naming the method `alg`. -/
def header (alg : String) : List (String × JSON) :=
  [("alg", JSON.string alg), ("typ", JSON.string "JWT")]

/-- The claims of a token, in marshalling order. -/
def claims (email : String) (exp iat : Int) (sub : JSON) : List (String × JSON) :=
  [("email", JSON.string email), ("exp", jsonInt64 exp), ("iat", jsonInt64 iat), ("sub", sub)]

/-- A codec knowing three headers and the claims of some tokens issued at second 5:
for `alice`, for `bigUser`, with `sub` 1.5, with `sub` a string, without `sub`, and
for `alice` with `exp` 0. -/
def lib : jwt.Lib :=
  bookLib
    [("h", header "HS256"), ("r", header "RS256"), ("n", header "none"),
     ("a", claims "a@x.com" 86405 5 (jsonUint 1)),
     ("b", claims "big@x.com" 86405 5 (jsonUint 9007199254740993)),
     ("f", claims "a@x.com" 86405 5 (JSON.number { neg := false, coeff := 15, exp10 := -1 })),
     ("s", claims "a@x.com" 86405 5 (JSON.string "1")),
     ("x", [("exp", jsonInt64 86405)]),
     ("z", claims "a@x.com" 0 5 (jsonUint 1))]

/-- The use case over the credential store, with no `JWT_SECRET` in the environment. -/
def uc : usecase.authUsecase store.Store := usecase.NewAuthUsecase (fun _ => "") store.repo

/-- A fresh request context carrying one `Authorization` header. -/
def request (authorization : String) : httpdelivery.Context :=
  { Header := [("Authorization", authorization)], Keys := [], aborted := false,
    status := none, body := none, calls := [] }

end sample

/-! ## Registration -/

namespace usecase

/-- When the lookup yields a user, `Register` stops with `ErrEmailExists` after that
one repository call. -/
theorem register_existing {σ : Type} (bc : Bcrypt) (u : authUsecase σ) (email password : String)
    (entropy : Nat) (w : World σ) (existing : User)
    (h : (u.userRepo.GetByEmail email w.store).1 = some existing) :
    u.Register bc email password entropy w =
      ((none, some GoError.ErrEmailExists),
        { store := w.store, calls := w.calls ++ [RepoCall.GetByEmail email] }) := by
  simp [authUsecase.Register, World.GetByEmail, h]

/-- When the lookup yields no user and hashing succeeds, `Register` calls `Create` and
returns what it reports. -/
theorem register_fresh {σ : Type} (bc : Bcrypt) (u : authUsecase σ) (email password : String)
    (entropy : Nat) (w : World σ) (hash : String) (user : User)
    (h : (u.userRepo.GetByEmail email w.store).1 = none)
    (hh : bc.GenerateFromPassword password Bcrypt.DefaultCost entropy = Except.ok hash)
    (hu : user = ⟨0, email, hash, zeroTime, zeroTime⟩) :
    u.Register bc email password entropy w =
      (match (u.userRepo.Create user w.store).1.2 with
       | some err => (none, some err)
       | none => (some (u.userRepo.Create user w.store).1.1, none),
        { store := (u.userRepo.Create user w.store).2,
          calls := w.calls ++ [RepoCall.GetByEmail email, RepoCall.Create user] }) := by
  subst hu
  simp [authUsecase.Register, World.GetByEmail, World.Create, h, hh]
  split <;> simp_all

end usecase

namespace store

/-- A lookup by email misses exactly when the store holds no record for the email. -/
theorem find_eq_none_iff_count (email : String) (s : Store) :
    s.users.find? (fun x => x.Email == email) = none ↔ count email s = 0 := by
  simp [count, List.filter_eq_nil_iff]

/-- The store finds a user for an email it holds a record for. -/
theorem getByEmail_of_count_pos (email : String) (s : Store) (h : 0 < count email s) :
    ∃ user, GetByEmail email s = (some user, none) := by
  unfold GetByEmail
  cases hf : s.users.find? (fun x => x.Email == email) with
  | none => rw [find_eq_none_iff_count] at hf; omega
  | some user => exact ⟨user, rfl⟩

/-- The store finds no user for an email it holds no record for. -/
theorem getByEmail_of_count_zero (email : String) (s : Store) (h : count email s = 0) :
    (GetByEmail email s).1 = none := by
  unfold GetByEmail
  rw [(find_eq_none_iff_count email s).2 h]

/-- Creating a user whose email is new succeeds and stores one record for it. -/
theorem create_of_count_zero (user : User) (s : Store) (h : count user.Email s = 0) :
    (Create user s).1.2 = none ∧ count user.Email (Create user s).2 = 1 := by
  have hany : s.users.any (fun x => x.Email == user.Email) = false := by
    rw [← find_eq_none_iff_count] at h
    simpa using h
  unfold Create
  simp only [hany]
  refine ⟨by simp, ?_⟩
  simp only [count] at h ⊢
  simp [List.filter_append, h]

end store

namespace usecase

/-- Counterexample to C2 as stated: on the empty store, a first registration whose
password the hashing scheme refuses returns the hashing error before any `Create`, and
the second registration for the same email succeeds instead of failing with
`ErrEmailExists`. -/
theorem register_twice_after_hash_failure :
    store.count "b@x.com" sample.emptyStore ≤ 1 ∧
    ((authUsecase.mk store.repo "k" (24 * Hour)).Register sample.plainBcrypt "b@x.com"
        sample.longPassword 1 ⟨sample.emptyStore, []⟩).1
      = (none, some (GoError.other "password too long")) ∧
    ((authUsecase.mk store.repo "k" (24 * Hour)).Register sample.plainBcrypt "b@x.com"
        sample.longPassword 1 ⟨sample.emptyStore, []⟩).2.calls
      = [RepoCall.GetByEmail "b@x.com"] ∧
    ((authUsecase.mk store.repo "k" (24 * Hour)).Register sample.plainBcrypt "b@x.com" "secret2" 2
        ((authUsecase.mk store.repo "k" (24 * Hour)).Register sample.plainBcrypt "b@x.com"
          sample.longPassword 1 ⟨sample.emptyStore, []⟩).2).1
      = (some ⟨1, "b@x.com", "ss$secret2", 0, 0⟩, none) ∧
    ((authUsecase.mk store.repo "k" (24 * Hour)).Register sample.plainBcrypt "b@x.com" "secret2" 2
        ((authUsecase.mk store.repo "k" (24 * Hour)).Register sample.plainBcrypt "b@x.com"
          sample.longPassword 1 ⟨sample.emptyStore, []⟩).2).1
      ≠ (none, some GoError.ErrEmailExists) := by
  decide

/-- C2, amended. A registration for an email the store already has a user for is rejected with
`ErrEmailExists` and no user, whatever the password; the only repository call is the
lookup, and the store is left as it was. Over the credential store of the
specification, when it holds at most one record for the email and the first of two
registrations for that email is not stopped by a hashing failure (which can only
happen when the email is new), the second registration fails with `ErrEmailExists`,
leaves the store as the first one left it, and the store holds exactly one record for
the email; and a registration for an email that store holds a record for leaves it
with exactly one record for the email. -/
theorem register_duplicate_rejected :
    (∀ (σ : Type) (bc : Bcrypt) (u : authUsecase σ) (email password : String) (entropy : Nat)
        (w : World σ) (existing : User),
        (u.userRepo.GetByEmail email w.store).1 = some existing →
        u.Register bc email password entropy w =
          ((none, some GoError.ErrEmailExists),
            { store := w.store, calls := w.calls ++ [RepoCall.GetByEmail email] })) ∧
    (∀ (bc : Bcrypt) (key : String) (ttl : Int) (s : store.Store) (e p1 p2 : String)
        (r1 r2 : Nat),
        store.count e s ≤ 1 →
        (store.count e s = 0 →
          ∃ hash, bc.GenerateFromPassword p1 Bcrypt.DefaultCost r1 = Except.ok hash) →
        ((authUsecase.mk store.repo key ttl).Register bc e p2 r2
            ((authUsecase.mk store.repo key ttl).Register bc e p1 r1 ⟨s, []⟩).2).1
          = (none, some GoError.ErrEmailExists) ∧
        ((authUsecase.mk store.repo key ttl).Register bc e p2 r2
            ((authUsecase.mk store.repo key ttl).Register bc e p1 r1 ⟨s, []⟩).2).2.store
          = ((authUsecase.mk store.repo key ttl).Register bc e p1 r1 ⟨s, []⟩).2.store ∧
        store.count e ((authUsecase.mk store.repo key ttl).Register bc e p2 r2
            ((authUsecase.mk store.repo key ttl).Register bc e p1 r1 ⟨s, []⟩).2).2.store = 1) ∧
    (∀ (bc : Bcrypt) (key : String) (ttl : Int) (s : store.Store) (calls : List RepoCall)
        (e p : String) (r : Nat) (existing : User),
        store.count e s ≤ 1 →
        (store.GetByEmail e s).1 = some existing →
        store.count e ((authUsecase.mk store.repo key ttl).Register bc e p r ⟨s, calls⟩).2.store
          = 1) := by
  refine ⟨fun σ bc u email password entropy w existing h =>
    register_existing bc u email password entropy w existing h, ?_, ?_⟩
  swap
  · intro bc key ttl s calls e p r existing hs hex
    have hsome : ((authUsecase.mk store.repo key ttl).userRepo.GetByEmail e
        (World.mk s calls).store).1 = some existing := hex
    rw [register_existing bc _ e p r ⟨s, calls⟩ existing hsome]
    have hpos : store.count e s ≠ 0 := by
      intro h0
      rw [store.getByEmail_of_count_zero e s h0] at hex
      cases hex
    show store.count e s = 1
    omega
  intro bc key ttl s e p1 p2 r1 r2 hs hh
  -- the store after the first call holds exactly one record for `e`
  have key1 : ∃ s1, ((authUsecase.mk store.repo key ttl).Register bc e p1 r1 ⟨s, []⟩).2.store = s1 ∧
      store.count e s1 = 1 := by
    rcases Nat.eq_zero_or_pos (store.count e s) with h0 | hpos
    · have hnone := store.getByEmail_of_count_zero e s h0
      obtain ⟨hash, hh⟩ := hh h0
      have hc := store.create_of_count_zero ⟨0, e, hash, zeroTime, zeroTime⟩ s h0
      rw [register_fresh bc _ e p1 r1 ⟨s, []⟩ hash _ hnone hh rfl]
      exact ⟨_, rfl, hc.2⟩
    · obtain ⟨user, hu⟩ := store.getByEmail_of_count_pos e s hpos
      have hsome : ((authUsecase.mk store.repo key ttl).userRepo.GetByEmail e
          (World.mk s []).store).1 = some user := by
        show (store.GetByEmail e s).1 = some user
        rw [hu]
      rw [register_existing bc _ e p1 r1 ⟨s, []⟩ user hsome]
      exact ⟨s, rfl, by omega⟩
  obtain ⟨s1, hs1, hcount⟩ := key1
  obtain ⟨user, hu⟩ := store.getByEmail_of_count_pos e s1 (by omega)
  have hsome : ((authUsecase.mk store.repo key ttl).userRepo.GetByEmail e
      ((authUsecase.mk store.repo key ttl).Register bc e p1 r1 ⟨s, []⟩).2.store).1 = some user := by
    rw [hs1]
    show (store.GetByEmail e s1).1 = some user
    rw [hu]
  rw [register_existing bc _ e p2 r2 _ user hsome]
  simp [hs1, hcount]

end usecase

namespace usecase

/-- Worked instance of the amended C2: with `alice` stored, a registration for her email is
rejected after the lookup; and two registrations for a new email on the empty store
leave one record. -/
theorem register_duplicate_rejected_witness :
    ((authUsecase.mk store.repo "k" (24 * Hour)).Register sample.plainBcrypt "a@x.com" "other1" 3
        ⟨sample.aliceStore, []⟩ =
      ((none, some GoError.ErrEmailExists),
        { store := sample.aliceStore, calls := [] ++ [RepoCall.GetByEmail "a@x.com"] })) ∧
    store.count "b@x.com" ((authUsecase.mk store.repo "k" (24 * Hour)).Register sample.plainBcrypt
        "b@x.com" "secret2" 2
        ((authUsecase.mk store.repo "k" (24 * Hour)).Register sample.plainBcrypt
          "b@x.com" "secret1" 1 ⟨sample.emptyStore, []⟩).2).2.store = 1 :=
  ⟨register_duplicate_rejected.1 store.Store sample.plainBcrypt
      (authUsecase.mk store.repo "k" (24 * Hour)) "a@x.com" "other1" 3 ⟨sample.aliceStore, []⟩
      sample.alice (by decide),
   (register_duplicate_rejected.2.1 sample.plainBcrypt "k" (24 * Hour) sample.emptyStore "b@x.com"
      "secret1" "secret2" 1 2 (by decide) (fun _ => ⟨"s$secret1", rfl⟩)).2.2⟩

end usecase

namespace usecase

/-- Counterexample to C7 as stated: the lookup finds no user, the store's `Create`
fails with its duplicate-email error, and `Register` returns that error, which is not
`ErrEmailExists`. -/
theorem register_duplicate_key_not_mapped :
    (sample.staleRepo.GetByEmail "a@x.com" sample.aliceStore).1 = none ∧
    (sample.staleRepo.Create ⟨0, "a@x.com", "ss$secret2", zeroTime, zeroTime⟩
        sample.aliceStore).1.2 = some (GoError.other "duplicate email") ∧
    ((authUsecase.mk sample.staleRepo "k" (24 * Hour)).Register sample.plainBcrypt
        "a@x.com" "secret2" 2 ⟨sample.aliceStore, []⟩).1
      = (none, some (GoError.other "duplicate email")) ∧
    ((authUsecase.mk sample.staleRepo "k" (24 * Hour)).Register sample.plainBcrypt
        "a@x.com" "secret2" 2 ⟨sample.aliceStore, []⟩).1
      ≠ (none, some GoError.ErrEmailExists) := by
  decide

/-- C7, amended. When the existence check finds no user, hashing succeeds and the
store's `Create` fails, `Register` returns no user and the error of `Create`
unchanged; so the error is `ErrEmailExists` only if that is the store's own error
value. -/
theorem register_returns_create_error {σ : Type} (bc : Bcrypt) (u : authUsecase σ)
    (email password : String) (entropy : Nat) (w : World σ) (hash : String) (err : GoError)
    (h : (u.userRepo.GetByEmail email w.store).1 = none)
    (hh : bc.GenerateFromPassword password Bcrypt.DefaultCost entropy = Except.ok hash)
    (hc : (u.userRepo.Create ⟨0, email, hash, zeroTime, zeroTime⟩ w.store).1.2 = some err) :
    (u.Register bc email password entropy w).1 = (none, some err) ∧
    ((u.Register bc email password entropy w).1 = (none, some GoError.ErrEmailExists) ↔
      err = GoError.ErrEmailExists) := by
  rw [register_fresh bc u email password entropy w hash _ h hh rfl]
  simp [hc]

/-- Worked instance of the amended C7 on the stale store. -/
theorem register_returns_create_error_witness :
    ((authUsecase.mk sample.staleRepo "k" (24 * Hour)).Register sample.plainBcrypt
        "a@x.com" "secret2" 2 ⟨sample.aliceStore, []⟩).1
      = (none, some (GoError.other "duplicate email")) :=
  (register_returns_create_error sample.plainBcrypt (authUsecase.mk sample.staleRepo "k" (24 * Hour))
    "a@x.com" "secret2" 2 ⟨sample.aliceStore, []⟩ "ss$secret2" (GoError.other "duplicate email")
    (by decide) rfl (by decide)).1

/-- C8, as the code behaves: when the lookup made by `Register` fails (no user, an
error of any kind), the error is dropped; if hashing and `Create` then succeed,
`Register` returns the created user and no error, after a store write. -/
theorem register_proceeds_after_lookup_failure {σ : Type} (bc : Bcrypt) (u : authUsecase σ)
    (email password : String) (entropy : Nat) (w : World σ) (hash : String) (failure : GoError)
    (h : u.userRepo.GetByEmail email w.store = (none, some failure))
    (hh : bc.GenerateFromPassword password Bcrypt.DefaultCost entropy = Except.ok hash)
    (hc : (u.userRepo.Create ⟨0, email, hash, zeroTime, zeroTime⟩ w.store).1.2 = none) :
    (u.Register bc email password entropy w).1 =
      (some (u.userRepo.Create ⟨0, email, hash, zeroTime, zeroTime⟩ w.store).1.1, none) ∧
    (u.Register bc email password entropy w).2.calls =
      w.calls ++ [RepoCall.GetByEmail email,
        RepoCall.Create ⟨0, email, hash, zeroTime, zeroTime⟩] ∧
    (u.Register bc email password entropy w).2.store =
      (u.userRepo.Create ⟨0, email, hash, zeroTime, zeroTime⟩ w.store).2 := by
  have hn : (u.userRepo.GetByEmail email w.store).1 = none := by rw [h]
  rw [register_fresh bc u email password entropy w hash _ hn hh rfl]
  simp [hc]

/-- Worked instance of C8: the lookup fails on the connection, and the registration
goes through and writes the user. -/
theorem register_proceeds_after_lookup_failure_witness :
    sample.downRepo.GetByEmail "a@x.com" sample.emptyStore =
      (none, some (GoError.other "connection refused")) ∧
    ((authUsecase.mk sample.downRepo "k" (24 * Hour)).Register sample.plainBcrypt
        "a@x.com" "secret1" 2 ⟨sample.emptyStore, []⟩).1
      = (some ⟨1, "a@x.com", "ss$secret1", 0, 0⟩, none) ∧
    ((authUsecase.mk sample.downRepo "k" (24 * Hour)).Register sample.plainBcrypt
        "a@x.com" "secret1" 2 ⟨sample.emptyStore, []⟩).2.store.users
      = [⟨1, "a@x.com", "ss$secret1", 0, 0⟩] :=
  ⟨by decide,
   (register_proceeds_after_lookup_failure sample.plainBcrypt
      (authUsecase.mk sample.downRepo "k" (24 * Hour)) "a@x.com" "secret1" 2
      ⟨sample.emptyStore, []⟩ "ss$secret1" (GoError.other "connection refused")
      (by decide) rfl (by decide)).1,
   by decide⟩

end usecase

/-! ## Login -/

namespace jwt

/-- The header written by `NewWithClaims`, in the order it is marshalled. -/
theorem sortKeys_header (alg : JSON) :
    sortKeys [("typ", JSON.string "JWT"), ("alg", alg)] =
      [("alg", alg), ("typ", JSON.string "JWT")] := by
  have h : ¬ (['t', 'y', 'p'] ≤ ['a', 'l', 'g']) := by decide
  simp [sortKeys, List.insertionSort, List.orderedInsert, h]

/-- The claims written by `Login`, in the order they are marshalled. -/
theorem sortKeys_claims (sub email exp iat : JSON) :
    sortKeys [("sub", sub), ("email", email), ("exp", exp), ("iat", iat)] =
      [("email", email), ("exp", exp), ("iat", iat), ("sub", sub)] := by
  have h1 : ¬ (['s', 'u', 'b'] ≤ ['e', 'm', 'a', 'i', 'l']) := by decide
  have h2 : ¬ (['s', 'u', 'b'] ≤ ['e', 'x', 'p']) := by decide
  have h3 : ¬ (['s', 'u', 'b'] ≤ ['i', 'a', 't']) := by decide
  have h4 : ['e', 'm', 'a', 'i', 'l'] ≤ ['e', 'x', 'p'] := by decide
  have h5 : ['e', 'x', 'p'] ≤ ['i', 'a', 't'] := by decide
  simp [sortKeys, List.insertionSort, List.orderedInsert, h1, h2, h3, h4, h5]

end jwt

namespace usecase

/-- The expiry of a token issued at `now` with the 24 hour lifetime. -/
theorem unix_add_day (now : Int) : Unix (now + 24 * Hour) = Unix now + 86400 := by
  unfold Unix Hour
  omega

/-- A successful `Login`: the user is found and the password verifies. -/
theorem login_success {σ : Type} (bc : Bcrypt) (L : jwt.Lib) (u : authUsecase σ)
    (email password : String) (now : Int) (w : World σ) (user : User)
    (h : u.userRepo.GetByEmail email w.store = (some user, none))
    (hp : bc.CompareHashAndPassword user.PasswordHash password = none) :
    u.Login bc L email password now w =
      (Outcome.returned (issued L u.jwtKey user (Unix now) (Unix (now + u.ttl)), none),
        { store := w.store, calls := w.calls ++ [RepoCall.GetByEmail email] }) := by
  simp [authUsecase.Login, World.GetByEmail, h, hp, jwt.NewToken.SignedString,
    jwt.NewToken.SigningString, jwt.NewWithClaims, jwt.sortKeys_header, jwt.sortKeys_claims,
    jwt.SigningMethodHS256, jwt.SigningMethod.Sign, jwt.SigningMethod.Alg, issued, signingInput]

/-- C3. `Login` fails in the same way for an email the store reports no user for and
for a password that does not verify against the stored hash: the empty token string
and `ErrInvalidCredential`, after the one lookup. -/
theorem login_fails_uniformly {σ : Type} (bc : Bcrypt) (L : jwt.Lib) (u : authUsecase σ)
    (email password : String) (now : Int) (w : World σ)
    (h : (u.userRepo.GetByEmail email w.store).2 ≠ none ∨
      ∃ user, u.userRepo.GetByEmail email w.store = (some user, none) ∧
        bc.CompareHashAndPassword user.PasswordHash password ≠ none) :
    u.Login bc L email password now w =
      (Outcome.returned ("", some GoError.ErrInvalidCredential),
        { store := w.store, calls := w.calls ++ [RepoCall.GetByEmail email] }) := by
  rcases h with h | ⟨user, h, hp⟩
  · cases he : (u.userRepo.GetByEmail email w.store).2 with
    | none => exact absurd he h
    | some err => simp [authUsecase.Login, World.GetByEmail, he]
  · cases hc : bc.CompareHashAndPassword user.PasswordHash password with
    | none => exact absurd hc hp
    | some err => simp [authUsecase.Login, World.GetByEmail, h, hc]

/-- Worked instance of C3: an unknown email and a wrong password give the same
result. -/
theorem login_fails_uniformly_witness :
    (authUsecase.mk store.repo "k" (24 * Hour)).Login sample.plainBcrypt (sample.bookLib [])
        "nonexistent@x.com" "anything" 5 ⟨sample.aliceStore, []⟩ =
      (Outcome.returned ("", some GoError.ErrInvalidCredential),
        { store := sample.aliceStore,
          calls := [] ++ [RepoCall.GetByEmail "nonexistent@x.com"] }) ∧
    (authUsecase.mk store.repo "k" (24 * Hour)).Login sample.plainBcrypt (sample.bookLib [])
        "a@x.com" "wrong" 5 ⟨sample.aliceStore, []⟩ =
      (Outcome.returned ("", some GoError.ErrInvalidCredential),
        { store := sample.aliceStore, calls := [] ++ [RepoCall.GetByEmail "a@x.com"] }) :=
  ⟨login_fails_uniformly sample.plainBcrypt (sample.bookLib [])
      (authUsecase.mk store.repo "k" (24 * Hour)) "nonexistent@x.com" "anything" 5
      ⟨sample.aliceStore, []⟩ (Or.inl (by decide)),
   login_fails_uniformly sample.plainBcrypt (sample.bookLib [])
      (authUsecase.mk store.repo "k" (24 * Hour)) "a@x.com" "wrong" 5
      ⟨sample.aliceStore, []⟩ (Or.inr ⟨sample.alice, by decide, by decide⟩)⟩

/-- C9. Every token a successful `Login` at time `now` returns is the HS256 token,
under the key taken from `JWT_SECRET` (or the development default), of exactly the
claims `sub` = the stored user's id, `email` = the stored user's email, `iat` = `now`
in Unix seconds and `exp` = `iat + 86400`; the lifetime set by `NewAuthUsecase` is 24
hours whatever the environment. -/
theorem login_token_claims {σ : Type} (getenv : String → String) (repo : UserRepository σ)
    (bc : Bcrypt) (L : jwt.Lib) (email password : String) (now : Int) (w : World σ)
    (tokenStr : String)
    (h : ((NewAuthUsecase getenv repo).Login bc L email password now w).1 =
      Outcome.returned (tokenStr, none)) :
    (NewAuthUsecase getenv repo).ttl = 86400 * 1000000000 ∧
    (NewAuthUsecase getenv repo).jwtKey =
      (if getenv "JWT_SECRET" = "" then "dev-secret-key" else getenv "JWT_SECRET") ∧
    ∃ user, repo.GetByEmail email w.store = (some user, none) ∧
      bc.CompareHashAndPassword user.PasswordHash password = none ∧
      (jwt.NewWithClaims (jwt.SigningMethod.HMAC jwt.Hash.SHA256)
          [("sub", jsonUint user.ID), ("email", JSON.string user.Email),
           ("exp", jsonInt64 (Unix now + 86400)), ("iat", jsonInt64 (Unix now))]).SignedString L
          (NewAuthUsecase getenv repo).jwtKey = Except.ok tokenStr ∧
      tokenStr = issued L (NewAuthUsecase getenv repo).jwtKey user (Unix now) (Unix now + 86400) := by
  refine ⟨by simp [NewAuthUsecase, Hour], by simp [NewAuthUsecase], ?_⟩
  have httl : (NewAuthUsecase getenv repo).ttl = 24 * Hour := rfl
  have hrepo : (NewAuthUsecase getenv repo).userRepo = repo := rfl
  cases hl : repo.GetByEmail email w.store with
  | mk found err =>
    cases err with
    | some e =>
      simp [authUsecase.Login, World.GetByEmail, hrepo, hl] at h
    | none =>
      cases found with
      | none => simp [authUsecase.Login, World.GetByEmail, hrepo, hl] at h
      | some user =>
        cases hp : bc.CompareHashAndPassword user.PasswordHash password with
        | some e => simp [authUsecase.Login, World.GetByEmail, hrepo, hl, hp] at h
        | none =>
          have hs := login_success bc L (NewAuthUsecase getenv repo) email password now w user
            (by rw [hrepo, hl]) hp
          rw [hs, httl, unix_add_day] at h
          simp only [Outcome.returned.injEq, Prod.mk.injEq, and_true] at h
          refine ⟨user, rfl, hp, ?_, h.symm⟩
          rw [← h]
          simp [jwt.NewToken.SignedString, jwt.NewToken.SigningString, jwt.NewWithClaims,
            jwt.sortKeys_header, jwt.sortKeys_claims, jwt.SigningMethod.Sign,
            jwt.SigningMethod.Alg, issued, signingInput]

/-- Worked instance of C9: `alice` logs in at second 5; the token carries her id and
email, `iat` 5 and `exp` 86405, under the development key. -/
theorem login_token_claims_witness :
    ∃ user, store.repo.GetByEmail "a@x.com" sample.aliceStore = (some user, none) ∧
      sample.plainBcrypt.CompareHashAndPassword user.PasswordHash "secret1" = none ∧
      (jwt.NewWithClaims (jwt.SigningMethod.HMAC jwt.Hash.SHA256)
          [("sub", jsonUint user.ID), ("email", JSON.string user.Email),
           ("exp", jsonInt64 (Unix 5000000007 + 86400)),
           ("iat", jsonInt64 (Unix 5000000007))]).SignedString sample.lib
          (NewAuthUsecase (fun _ => "") store.repo).jwtKey
        = Except.ok "h.a.dev-secret-key/h+a" ∧
      "h.a.dev-secret-key/h+a" =
        issued sample.lib (NewAuthUsecase (fun _ => "") store.repo).jwtKey user (Unix 5000000007)
          (Unix 5000000007 + 86400) :=
  (login_token_claims (fun _ => "") store.repo sample.plainBcrypt sample.lib "a@x.com" "secret1"
    5000000007 ⟨sample.aliceStore, []⟩ "h.a.dev-secret-key/h+a" (by decide)).2.2

end usecase

/-! ## Integers through `float64` -/

/-- The binary length of a positive number brackets it between two powers of two. -/
theorem bitLenAux_spec (fuel : Nat) : ∀ n, n ≤ fuel → 0 < n →
    0 < bitLenAux fuel n ∧ 2 ^ (bitLenAux fuel n - 1) ≤ n ∧ n < 2 ^ bitLenAux fuel n := by
  induction fuel with
  | zero => intro n hle hpos; omega
  | succ fuel ih =>
    intro n hle hpos
    have hne : n ≠ 0 := by omega
    simp only [bitLenAux, hne, if_false]
    rcases Nat.eq_zero_or_pos (n / 2) with hz | hp
    · have h1 : n = 1 := by omega
      subst h1
      cases fuel <;> simp [bitLenAux]
    · obtain ⟨hb, hlo, hhi⟩ := ih (n / 2) (by omega) hp
      refine ⟨by omega, ?_, ?_⟩
      · have : bitLenAux fuel (n / 2) + 1 - 1 = (bitLenAux fuel (n / 2) - 1) + 1 := by omega
        rw [this, Nat.pow_succ]
        omega
      · rw [Nat.pow_succ]
        omega

/-- Bounds on a positive number from its binary length. -/
theorem bitLen_spec (n : Nat) (hpos : 0 < n) :
    0 < bitLen n ∧ 2 ^ (bitLen n - 1) ≤ n ∧ n < 2 ^ bitLen n :=
  bitLenAux_spec n n (Nat.le_refl n) hpos

/-- A number below `2^53` has at most 53 binary digits. -/
theorem bitLen_le_53 (n : Nat) (hpos : 0 < n) (h : n < 2 ^ 53) : bitLen n ≤ 53 := by
  obtain ⟨_, hlo, _⟩ := bitLen_spec n hpos
  by_contra hc
  have : 2 ^ 53 ≤ 2 ^ (bitLen n - 1) := Nat.pow_le_pow_right (by norm_num) (by omega)
  omega

/-- A natural number below `2^53` is read as a `float64` without rounding. -/
theorem parseFloat64_exact (n : Nat) (h : n < 2 ^ 53) :
    ∃ f, parseFloat64 { neg := false, coeff := n, exp10 := 0 } = some f ∧ f.neg = false ∧
      f.truncAbs = n ∧ (f.mant = 0 ↔ n = 0) := by
  rcases Nat.eq_zero_or_pos n with hz | hpos
  · subst hz
    exact ⟨⟨false, 0, 0⟩, by decide, rfl, by decide, by decide⟩
  · obtain ⟨hb, hlo, hhi⟩ := bitLen_spec n hpos
    have hle := bitLen_le_53 n hpos h
    have hne : n ≠ 0 := by omega
    have hb1 : bitLen 1 = 1 := by decide
    -- the shift that brings `n` to 53 bits
    obtain ⟨k, hk⟩ : ∃ k, bitLen n + k = 53 := ⟨53 - bitLen n, by omega⟩
    have hscaled : 2 ^ 52 ≤ n * 2 ^ k := by
      have : 2 ^ 52 = 2 ^ (bitLen n - 1) * 2 ^ k := by
        rw [← Nat.pow_add]; congr 1; omega
      rw [this]
      exact Nat.mul_le_mul_right _ hlo
    have hscaled2 : 2 ^ 53 ≤ n * 2 ^ (k + 1) := by
      have h2 : n * 2 ^ (k + 1) = (n * 2 ^ k) * 2 := by rw [Nat.pow_succ, Nat.mul_assoc]
      omega
    have he0 : ((bitLen n : Int) - (bitLen 1 : Int) - 53) = -((k + 1 : Nat) : Int) := by
      rw [hb1]; push_cast; omega
    have hs0 : scaled n 1 (-((k + 1 : Nat) : Int)) = (n * 2 ^ (k + 1), 1) := by
      unfold scaled
      rw [if_neg (by omega)]
      simp
    have he1 : (-((k + 1 : Nat) : Int)) + 1 = -((k : Nat) : Int) := by push_cast; omega
    have hs1 : scaled n 1 (-((k : Nat) : Int)) = (n * 2 ^ k, 1) := by
      unfold scaled
      by_cases hk0 : k = 0
      · subst hk0; simp
      · rw [if_neg (by omega)]
        simp
    refine ⟨⟨false, n * 2 ^ k, -((k : Nat) : Int)⟩, ?_, rfl, ?_, ?_⟩
    · unfold parseFloat64 roundRatio
      simp only [le_refl, if_true, Int.toNat_zero, pow_zero, mul_one, hne, if_false]
      rw [he0]
      have hclamp : ¬ (-((k : Nat) : Int) < -1074) := by omega
      have hover : ¬ (971 < -((k : Nat) : Int) ∨
          (-((k : Nat) : Int) = 971 ∧ n * 2 ^ k = 2 ^ 53)) := by omega
      have hround : ¬ (1 < 2 * 0 ∨ (2 * 0 = 1 ∧ n * 2 ^ k % 2 = 1)) := by omega
      rw [hs0]
      dsimp only
      rw [Nat.div_one, if_pos hscaled2, he1, if_neg hclamp, hs1]
      dsimp only
      rw [Nat.div_one, Nat.mod_one, if_neg hround, if_neg hover]
      rfl
    · unfold Float64.truncAbs
      by_cases hk0 : k = 0
      · subst hk0; simp
      · simp only
        rw [if_neg (by omega)]
        simp
    · simp only
      constructor
      · intro hm
        have : 0 < n * 2 ^ k := by omega
        omega
      · intro hn; omega

/-- The id read back from a `sub` below `2^53` is the id written. -/
theorem uint_parseFloat64_exact (T : Target) (n : Nat) (h : n < 2 ^ 53) :
    ∃ f, parseFloat64 { neg := false, coeff := n, exp10 := 0 } = some f ∧
      uintOfFloat64 T f = n := by
  obtain ⟨f, hf, hneg, htr, _⟩ := parseFloat64_exact n h
  refine ⟨f, hf, ?_⟩
  unfold uintOfFloat64
  rw [htr]
  split
  · rename_i hz; exact hz.symm
  · rw [if_pos ⟨hneg, by omega⟩]

/-! ## Decoded claims and the members they come from -/

/-- Decoding an object keeps the member names and decodes every value. -/
theorem decodeObject_pairs : ∀ (obj : List (String × JSON)) (claims : List (String × Value)),
    decodeObject obj = some claims →
    List.Forall₂ (fun a b => a.1 = b.1 ∧ decodeValue a.2 = some b.2) obj claims := by
  intro obj
  induction obj with
  | nil =>
    intro claims h
    simp only [decodeObject, Option.some.injEq] at h
    subst h
    exact List.Forall₂.nil
  | cons kj rest ih =>
    intro claims h
    obtain ⟨k, j⟩ := kj
    unfold decodeObject at h
    cases hv : decodeValue j with
    | none => simp [hv] at h
    | some v =>
      cases hm : decodeObject rest with
      | none => simp [hv, hm] at h
      | some m =>
        simp only [hv, hm, Option.some.injEq] at h
        subst h
        exact List.Forall₂.cons ⟨rfl, hv⟩ (ih m hm)

/-- Looking a name up in two lists related member by member gives related results. -/
theorem lookup_pairs (key : String) : ∀ (l1 : List (String × JSON)) (l2 : List (String × Value)),
    List.Forall₂ (fun a b => a.1 = b.1 ∧ decodeValue a.2 = some b.2) l1 l2 →
    (l1.lookup key = none ∧ l2.lookup key = none) ∨
      ∃ j v, l1.lookup key = some j ∧ l2.lookup key = some v ∧ decodeValue j = some v := by
  intro l1
  induction l1 with
  | nil =>
    intro l2 h
    cases h
    exact Or.inl ⟨rfl, rfl⟩
  | cons a r1 ih =>
    intro l2 h
    obtain ⟨b, r2, hab, hrest, rfl⟩ := List.forall₂_cons_left_iff.1 h
    obtain ⟨k, j⟩ := a
    obtain ⟨k2, v⟩ := b
    obtain ⟨hk, hjv⟩ := hab
    simp only at hk hjv
    subst hk
    by_cases hkey : key = k
    · subst hkey
      exact Or.inr ⟨j, v, by simp, by simp, hjv⟩
    · have hne : (key == k) = false := by simpa using hkey
      simp only [List.lookup_cons, hne]
      exact ih r2 hrest

/-- The value stored under a name after decoding is the decoded last member of that
name. -/
theorem index_decodeObject (obj : List (String × JSON)) (claims : List (String × Value))
    (key : String) (h : decodeObject obj = some claims) :
    (member obj key = none ∧ index claims key = none) ∨
      ∃ j v, member obj key = some j ∧ index claims key = some v ∧ decodeValue j = some v :=
  lookup_pairs key obj.reverse claims.reverse
    (List.forall₂_reverse_iff.2 (decodeObject_pairs obj claims h))


/-! ## Token parsing -/

namespace jwt

/-- What an accepted token went through: the last steps of `ParseWithClaims`. -/
theorem verifyDecoded_ok (L : Lib) (T : Target) (now : Int) (keyFunc : Keyfunc) (text : String)
    (token0 token : Token) (claims : List (String × Value))
    (h : verifyDecoded L T now keyFunc text token0 claims = Except.ok token) :
    ∃ key, keyFunc token0 = Except.ok key ∧
      token0.Method.Verify L text token0.Signature key = true ∧
      Validate T now claims = Option.none ∧
      token = { token0 with Valid := true } := by
  unfold verifyDecoded at h
  split at h
  · cases h
  · rename_i key hk
    split at h
    · cases h
    · rename_i hv
      split at h
      · cases h
      · rename_i hval
        refine ⟨key, hk, ?_, hval, ?_⟩
        · simpa using hv
        · cases h; rfl

/-- What an accepted token string went through in `Parse`. -/
theorem parse_ok (L : Lib) (T : Target) (now : Int) (tokenString : String) (keyFunc : Keyfunc)
    (token : Token) (h : Parse L T now tokenString keyFunc = Except.ok token) :
    ∃ p0 p1 p2 header claims alg method sig key,
      splitDots tokenString = [p0, p1, p2] ∧
      decodeMap L p0 = some header ∧
      decodeMap L p1 = some claims ∧
      index header "alg" = some (Value.string alg) ∧
      GetSigningMethod alg = some method ∧
      L.DecodeSegment p2 = some sig ∧
      keyFunc { Raw := tokenString, Method := method, Header := header,
                Claims := Claims.MapClaims claims, Signature := sig, Valid := false }
        = Except.ok key ∧
      method.Verify L (p0 ++ "." ++ p1) sig key = true ∧
      Validate T now claims = Option.none ∧
      token = { Raw := tokenString, Method := method, Header := header,
                Claims := Claims.MapClaims claims, Signature := sig, Valid := true } := by
  unfold Parse at h
  split at h
  · rename_i p0 p1 p2 hsplit
    split at h
    · rename_i header claims hh hc
      split at h
      · rename_i alg halg
        split at h
        · cases h
        · rename_i method hm
          split at h
          · cases h
          · rename_i sig hsig
            obtain ⟨key, hk, hv, hval, ht⟩ := verifyDecoded_ok L T now keyFunc _ _ _ _ h
            exact ⟨p0, p1, p2, header, claims, alg, method, sig, key, hsplit, hh, hc, halg, hm,
              hsig, hk, hv, hval, ht⟩
      · cases h
    · cases h
  · cases h

end jwt

namespace jwt

/-- A method found in the registry carries the name it was looked up by. -/
theorem getSigningMethod_alg (alg : String) (m : SigningMethod)
    (h : GetSigningMethod alg = some m) : m.Alg = alg := by
  unfold GetSigningMethod at h
  have := List.find?_some h
  simpa using this

/-- The names of the HMAC methods. -/
theorem hmac_alg (h : Hash) : (SigningMethod.HMAC h).Alg ∈ ["HS256", "HS384", "HS512"] := by
  cases h <;> simp [SigningMethod.Alg]

end jwt

namespace usecase

/-- The key callback hands out the signing key, and only for an HMAC method. -/
theorem keyFunc_ok {σ : Type} (u : authUsecase σ) (t : jwt.Token) (key : String)
    (h : u.keyFunc t = Except.ok key) :
    key = u.jwtKey ∧ ∃ hash, t.Method = jwt.SigningMethod.HMAC hash := by
  unfold authUsecase.keyFunc at h
  split at h
  · rename_i hash hm
    cases h
    exact ⟨rfl, hash, hm⟩
  · cases h

/-- The key callback refuses every method that is not HMAC. -/
theorem keyFunc_error {σ : Type} (u : authUsecase σ) (t : jwt.Token)
    (h : ∀ hash, t.Method ≠ jwt.SigningMethod.HMAC hash) :
    u.keyFunc t = Except.error GoError.ErrSignatureInvalid := by
  unfold authUsecase.keyFunc
  split
  · rename_i hash hm
    exact absurd hm (h hash)
  · rfl

/-- When `jwt.Parse` reports an error, `ParseToken` answers `ErrInvalidCredential`. -/
theorem parseToken_of_error {σ : Type} (L : jwt.Lib) (T : Target) (u : authUsecase σ)
    (now : Int) (tokenStr : String) (err : GoError)
    (h : jwt.Parse L T now tokenStr u.keyFunc = Except.error err) :
    u.ParseToken L T now tokenStr = (0, some GoError.ErrInvalidCredential) := by
  simp [authUsecase.ParseToken, h]

/-- When `jwt.Parse` accepts the token, `ParseToken` answers from the `sub` claim. -/
theorem parseToken_of_ok {σ : Type} (L : jwt.Lib) (T : Target) (u : authUsecase σ)
    (now : Int) (tokenStr : String) (token : jwt.Token) (claims : List (String × Value))
    (h : jwt.Parse L T now tokenStr u.keyFunc = Except.ok token)
    (hc : token.Claims = jwt.Claims.MapClaims claims) (hv : token.Valid = true) :
    u.ParseToken L T now tokenStr =
      match index claims "sub" with
      | some (Value.float64 sub) => (uintOfFloat64 T sub, none)
      | _ => (0, some GoError.ErrInvalidCredential) := by
  simp only [authUsecase.ParseToken, h, hc, hv]
  simp

/-- Counterexample to C4 as stated: a correctly signed token whose `exp` is 0, an
expiry long in the past at second 6, passes verification and `ParseToken` returns the
id with no error. -/
theorem parseToken_accepts_zero_expiry :
    (∃ token, jwt.Parse sample.lib sample.zeroTarget 6000000000 "h.z.dev-secret-key/h+z"
        sample.uc.keyFunc = Except.ok token ∧ token.Valid = true ∧
      ∃ claims, token.Claims = jwt.Claims.MapClaims claims ∧
        index claims "exp" = (parseFloat64 { neg := false, coeff := 0, exp10 := 0 }).map
          Value.float64) ∧
    sample.uc.ParseToken sample.lib sample.zeroTarget 6000000000 "h.z.dev-secret-key/h+z"
      = (1, none) ∧
    sample.uc.ParseToken sample.lib sample.zeroTarget 6000000000 "h.z.dev-secret-key/h+z"
      ≠ (0, some GoError.ErrInvalidCredential) := by
  refine ⟨⟨_, rfl, by decide, _, rfl, by decide⟩, by decide, by decide⟩

/-- C4, amended. `ParseToken` answers user id 0 and `ErrInvalidCredential` whenever
`jwt.Parse` reports an error or a token that is not valid; every answer is either an id
with no error or 0 with `ErrInvalidCredential`; a token string that does not have
three segments, one whose signature is not the HMAC of its first two segments under
the key, and one whose `exp` is a number other than zero and not after `now` are all
rejected; an `exp` of zero is read as no expiry and passes the expiry check. -/
theorem parseToken_rejects {σ : Type} (L : jwt.Lib) (T : Target) (u : authUsecase σ)
    (now : Int) (tokenStr : String) :
    ((∀ token, jwt.Parse L T now tokenStr u.keyFunc = Except.ok token → token.Valid = false) →
      u.ParseToken L T now tokenStr = (0, some GoError.ErrInvalidCredential)) ∧
    (u.ParseToken L T now tokenStr = (0, some GoError.ErrInvalidCredential) ∨
      ∃ id, u.ParseToken L T now tokenStr = (id, none)) ∧
    ((jwt.splitDots tokenStr).length ≠ 3 →
      u.ParseToken L T now tokenStr = (0, some GoError.ErrInvalidCredential)) ∧
    (∀ p0 p1 p2 sig, jwt.splitDots tokenStr = [p0, p1, p2] → L.DecodeSegment p2 = some sig →
      (∀ hash, sig ≠ L.hmac hash u.jwtKey (p0 ++ "." ++ p1)) →
      u.ParseToken L T now tokenStr = (0, some GoError.ErrInvalidCredential)) ∧
    (∀ p0 p1 p2 claims exp, jwt.splitDots tokenStr = [p0, p1, p2] →
      jwt.decodeMap L p1 = some claims → index claims "exp" = some (Value.float64 exp) →
      exp.mant ≠ 0 → jwt.numericDateSeconds T exp * 1000000000 ≤ now →
      u.ParseToken L T now tokenStr = (0, some GoError.ErrInvalidCredential)) ∧
    (∀ (claims : List (String × Value)) (exp : Float64),
      index claims "exp" = some (Value.float64 exp) → exp.mant = 0 →
      jwt.verifyExpiresAt T claims now = none) := by
  have hzero : ∀ (claims : List (String × Value)) (exp : Float64),
      index claims "exp" = some (Value.float64 exp) → exp.mant = 0 →
      jwt.verifyExpiresAt T claims now = none := by
    intro claims exp hexp hmant
    simp [jwt.verifyExpiresAt, jwt.parseNumericDate, hexp, hmant]
  cases hp : jwt.Parse L T now tokenStr u.keyFunc with
  | error err =>
    have hr := parseToken_of_error L T u now tokenStr err hp
    exact ⟨fun _ => hr, Or.inl hr, fun _ => hr, fun _ _ _ _ _ _ _ => hr,
      fun _ _ _ _ _ _ _ _ _ _ => hr, hzero⟩
  | ok token =>
    obtain ⟨p0, p1, p2, header, claims, alg, method, sig, key, hsplit, hh, hc, halg, hm, hsig,
      hk, hv, hval, ht⟩ := jwt.parse_ok L T now tokenStr u.keyFunc token hp
    have hr := parseToken_of_ok L T u now tokenStr token claims hp (by rw [ht]) (by rw [ht])
    refine ⟨?_, ?_, ?_, ?_, ?_, hzero⟩
    · intro hall
      have := hall token rfl
      rw [ht] at this
      cases this
    · rw [hr]
      split
      · exact Or.inr ⟨_, rfl⟩
      · exact Or.inl rfl
    · intro hlen
      rw [hsplit] at hlen
      exact absurd rfl hlen
    · intro q0 q1 q2 sig2 hsplit2 hsig2 hne
      rw [hsplit] at hsplit2
      simp only [List.cons.injEq, and_true] at hsplit2
      obtain ⟨h0, h1, h2⟩ := hsplit2
      subst h0 h1 h2
      rw [hsig] at hsig2
      cases hsig2
      obtain ⟨hkey, hash, hmeth⟩ := keyFunc_ok u _ key hk
      simp only at hmeth
      subst hmeth
      subst hkey
      exfalso
      apply hne hash
      simpa [jwt.SigningMethod.Verify] using hv
    · intro q0 q1 q2 claims2 exp hsplit2 hc2 hexp hmant hpast
      rw [hsplit] at hsplit2
      simp only [List.cons.injEq, and_true] at hsplit2
      obtain ⟨h0, h1, h2⟩ := hsplit2
      subst h0 h1 h2
      rw [hc] at hc2
      cases hc2
      exfalso
      have hnot : ¬ now < jwt.numericDateSeconds T exp * 1000000000 := by omega
      simp [jwt.Validate, jwt.verifyExpiresAt, jwt.parseNumericDate, hexp, hmant, hnot] at hval

/-- Worked instance of the amended C4: a string without dots, a token with a forged signature and
an expired token are rejected. -/
theorem parseToken_rejects_witness :
    sample.uc.ParseToken sample.lib sample.zeroTarget 6000000000 "garbage"
      = (0, some GoError.ErrInvalidCredential) ∧
    sample.uc.ParseToken sample.lib sample.zeroTarget 6000000000 "h.a.forged"
      = (0, some GoError.ErrInvalidCredential) ∧
    sample.uc.ParseToken sample.lib sample.zeroTarget 86405000000000 "h.a.dev-secret-key/h+a"
      = (0, some GoError.ErrInvalidCredential) :=
  ⟨(parseToken_rejects sample.lib sample.zeroTarget sample.uc 6000000000 "garbage").2.2.1
      (by decide),
   (parseToken_rejects sample.lib sample.zeroTarget sample.uc 6000000000 "h.a.forged").2.2.2.1
      "h" "a" "forged" "forged" (by decide) (by decide)
      (by intro hash; cases hash <;> decide),
   (parseToken_rejects sample.lib sample.zeroTarget sample.uc 86405000000000
      "h.a.dev-secret-key/h+a").2.2.2.2.1
      "h" "a" "dev-secret-key/h+a"
      [("email", Value.string "a@x.com"),
       ("exp", Value.float64 { neg := false, mant := 5937706387374080, exp := -36 }),
       ("iat", Value.float64 { neg := false, mant := 5629499534213120, exp := -50 }),
       ("sub", Value.float64 { neg := false, mant := 4503599627370496, exp := -52 })]
      { neg := false, mant := 5937706387374080, exp := -36 }
      (by decide) (by decide) (by decide) (by decide) (by decide)⟩

/-- Counterexample to C5 as stated: a token that verifies and whose `sub` is 1.5 is
accepted, with id 1. -/
theorem parseToken_accepts_fractional_subject :
    (∃ token, jwt.Parse sample.lib sample.zeroTarget 6000000000 "h.f.dev-secret-key/h+f"
        sample.uc.keyFunc = Except.ok token ∧ token.Valid = true ∧
      ∃ claims, token.Claims = jwt.Claims.MapClaims claims ∧
        index claims "sub" = (parseFloat64 { neg := false, coeff := 15, exp10 := -1 }).map
          Value.float64) ∧
    sample.uc.ParseToken sample.lib sample.zeroTarget 6000000000 "h.f.dev-secret-key/h+f"
      = (1, none) := by
  refine ⟨⟨_, rfl, by decide, _, rfl, by decide⟩, by decide⟩

/-- C5, amended. For a token that passes verification, `ParseToken` fails with id 0 and
`ErrInvalidCredential` exactly when the `sub` member of the claims is missing or is not
a JSON number. When `sub` is a number, `ParseToken` returns no error and the id
`uint(f)`, where `f` is the `float64` the number is decoded to: the integer part of
`f` whenever `f` is not negative and its integer part is below `2^64`; and when `sub`
is written as a non-negative integer below `2^53`, the id is that integer. -/
theorem parseToken_subject {σ : Type} (L : jwt.Lib) (T : Target) (u : authUsecase σ)
    (now : Int) (tokenStr : String) (token : jwt.Token) (p0 p1 p2 : String)
    (obj : List (String × JSON))
    (h : jwt.Parse L T now tokenStr u.keyFunc = Except.ok token)
    (hsplit : jwt.splitDots tokenStr = [p0, p1, p2])
    (hobj : (L.DecodeSegment p1).bind L.Unmarshal = some obj) :
    ((∀ num, member obj "sub" ≠ some (JSON.number num)) →
      u.ParseToken L T now tokenStr = (0, some GoError.ErrInvalidCredential)) ∧
    (∀ num, member obj "sub" = some (JSON.number num) →
      ∃ sub, parseFloat64 num = some sub ∧
        u.ParseToken L T now tokenStr = (uintOfFloat64 T sub, none) ∧
        (sub.neg = false → sub.truncAbs < 2 ^ 64 → uintOfFloat64 T sub = sub.truncAbs)) ∧
    (∀ n, n < 2 ^ 53 → member obj "sub" = some (jsonUint n) →
      u.ParseToken L T now tokenStr = (n, none)) := by
  obtain ⟨q0, q1, q2, header, claims, alg, method, sig, key, hsplit2, hh, hc, halg, hm, hsig,
    hk, hv, hval, ht⟩ := jwt.parse_ok L T now tokenStr u.keyFunc token h
  have hr := parseToken_of_ok L T u now tokenStr token claims h (by rw [ht]) (by rw [ht])
  rw [hsplit] at hsplit2
  simp only [List.cons.injEq, and_true] at hsplit2
  obtain ⟨h0, h1, h2⟩ := hsplit2
  subst h0 h1 h2
  have hdec : decodeObject obj = some claims := by
    unfold jwt.decodeMap at hc
    rw [hobj] at hc
    simpa using hc
  have hnum : ∀ num, member obj "sub" = some (JSON.number num) →
      ∃ sub, parseFloat64 num = some sub ∧
        u.ParseToken L T now tokenStr = (uintOfFloat64 T sub, none) := by
    intro num hmem
    rcases index_decodeObject obj claims "sub" hdec with ⟨hn, _⟩ | ⟨j, v, hj, hvv, hjv⟩
    · rw [hn] at hmem; cases hmem
    · rw [hj] at hmem
      cases hmem
      cases hpf : parseFloat64 num with
      | none => simp [decodeValue, hpf] at hjv
      | some sub =>
        simp only [decodeValue, hpf, Option.map_some', Option.some.injEq] at hjv
        subst hjv
        exact ⟨sub, rfl, by rw [hr, hvv]⟩
  refine ⟨?_, ?_, ?_⟩
  · intro hno
    rw [hr]
    rcases index_decodeObject obj claims "sub" hdec with ⟨_, hi⟩ | ⟨j, v, hj, hvv, hjv⟩
    · rw [hi]
    · rw [hvv]
      cases j with
      | number num => exact absurd hj (hno num)
      | null => cases hjv; rfl
      | bool b => cases hjv; rfl
      | string s => cases hjv; rfl
      | compound raw => cases hjv; rfl
  · intro num hmem
    obtain ⟨sub, hpf, hres⟩ := hnum num hmem
    refine ⟨sub, hpf, hres, ?_⟩
    intro hneg hlt
    unfold uintOfFloat64
    split
    · rename_i hz
      exact hz.symm
    · rw [if_pos ⟨hneg, hlt⟩]
  · intro n hn hmem
    obtain ⟨sub, hpf, hres⟩ := hnum _ hmem
    obtain ⟨sub2, hpf2, hu⟩ := uint_parseFloat64_exact T n hn
    rw [hpf] at hpf2
    cases hpf2
    rw [hres, hu]

/-- Worked instance of the amended C5: a verified token whose `sub` is a string is
rejected, and one whose `sub` is the number 1 yields id 1. -/
theorem parseToken_subject_witness :
    sample.uc.ParseToken sample.lib sample.zeroTarget 6000000000 "h.s.dev-secret-key/h+s"
      = (0, some GoError.ErrInvalidCredential) ∧
    sample.uc.ParseToken sample.lib sample.zeroTarget 6000000000 "h.a.dev-secret-key/h+a"
      = (1, none) :=
  ⟨(parseToken_subject sample.lib sample.zeroTarget sample.uc 6000000000
      "h.s.dev-secret-key/h+s" _ "h" "s" "dev-secret-key/h+s"
      (sample.claims "a@x.com" 86405 5 (JSON.string "1")) rfl (by decide) (by decide)).1
      (by
        intro num hmem
        have hs : member (sample.claims "a@x.com" 86405 5 (JSON.string "1")) "sub" =
            some (JSON.string "1") := by decide
        rw [hs] at hmem
        cases hmem),
   (parseToken_subject sample.lib sample.zeroTarget sample.uc 6000000000
      "h.a.dev-secret-key/h+a" _ "h" "a" "dev-secret-key/h+a"
      (sample.claims "a@x.com" 86405 5 (jsonUint 1)) rfl (by decide) (by decide)).2.2
      1 (by decide) (by decide)⟩

/-- C6. The key callback of `ParseToken` returns an error for every token whose method
is not of the HMAC family and returns the signing key only for an HMAC method; a token
whose header names anything but HS256, HS384 or HS512 makes `ParseToken` fail with
`ErrInvalidCredential`; `Login` signs with HS256, an HMAC method. -/
theorem parseToken_pins_hmac {σ : Type} (L : jwt.Lib) (T : Target) (u : authUsecase σ)
    (now : Int) :
    (∀ t : jwt.Token, (∀ hash, t.Method ≠ jwt.SigningMethod.HMAC hash) →
      u.keyFunc t = Except.error GoError.ErrSignatureInvalid) ∧
    (∀ (t : jwt.Token) (key : String), u.keyFunc t = Except.ok key →
      key = u.jwtKey ∧ ∃ hash, t.Method = jwt.SigningMethod.HMAC hash) ∧
    (∀ tokenStr p0 p1 p2 header alg, jwt.splitDots tokenStr = [p0, p1, p2] →
      jwt.decodeMap L p0 = some header → index header "alg" = some (Value.string alg) →
      alg ∉ ["HS256", "HS384", "HS512"] →
      u.ParseToken L T now tokenStr = (0, some GoError.ErrInvalidCredential)) ∧
    jwt.SigningMethodHS256 = jwt.SigningMethod.HMAC jwt.Hash.SHA256 := by
  refine ⟨fun t h => keyFunc_error u t h, fun t key h => keyFunc_ok u t key h, ?_, rfl⟩
  intro tokenStr q0 q1 q2 header2 alg2 hsplit2 hh2 halg2 hnot
  cases hp : jwt.Parse L T now tokenStr u.keyFunc with
  | error err => exact parseToken_of_error L T u now tokenStr err hp
  | ok token =>
    exfalso
    obtain ⟨p0, p1, p2, header, claims, alg, method, sig, key, hsplit, hh, hc, halg, hm, hsig,
      hk, hv, hval, ht⟩ := jwt.parse_ok L T now tokenStr u.keyFunc token hp
    rw [hsplit] at hsplit2
    simp only [List.cons.injEq, and_true] at hsplit2
    obtain ⟨h0, h1, h2⟩ := hsplit2
    subst h0 h1 h2
    rw [hh] at hh2
    cases hh2
    rw [halg] at halg2
    cases halg2
    obtain ⟨_, hash, hmeth⟩ := keyFunc_ok u _ key hk
    simp only at hmeth
    subst hmeth
    apply hnot
    rw [← jwt.getSigningMethod_alg _ _ hm]
    exact jwt.hmac_alg hash

/-- Worked instance of C6: tokens whose headers name RS256 and the unsecured
method are rejected, whatever their signature segment. -/
theorem parseToken_pins_hmac_witness :
    sample.uc.ParseToken sample.lib sample.zeroTarget 6000000000 "r.a.dev-secret-key/r+a"
      = (0, some GoError.ErrInvalidCredential) ∧
    sample.uc.ParseToken sample.lib sample.zeroTarget 6000000000 "n.a."
      = (0, some GoError.ErrInvalidCredential) :=
  ⟨(parseToken_pins_hmac sample.lib sample.zeroTarget sample.uc 6000000000).2.2.1
      "r.a.dev-secret-key/r+a" "r" "a" "dev-secret-key/r+a"
      [("alg", Value.string "RS256"), ("typ", Value.string "JWT")] "RS256"
      (by decide) (by decide) (by decide) (by decide),
   (parseToken_pins_hmac sample.lib sample.zeroTarget sample.uc 6000000000).2.2.1
      "n.a." "n" "a" ""
      [("alg", Value.string "none"), ("typ", Value.string "JWT")] "none"
      (by decide) (by decide) (by decide) (by decide)⟩

end usecase

/-! ## Login followed by ParseToken -/

namespace jwt

/-- Three segments without dots, joined by dots, split into the three segments. -/
theorem splitDots_three (a b c : String) (ha : '.' ∉ a.data) (hb : '.' ∉ b.data)
    (hc : '.' ∉ c.data) : splitDots (a ++ "." ++ b ++ "." ++ c) = [a, b, c] := by
  have hdata : (a ++ "." ++ b ++ "." ++ c).data = ['.'].intercalate [a.data, b.data, c.data] := by
    simp [List.intercalate, String.data_append]
  unfold splitDots
  rw [hdata, List.splitOn_intercalate _ '.' (by
    intro l hl
    simp only [List.mem_cons, List.mem_singleton, List.not_mem_nil, or_false] at hl
    rcases hl with rfl | rfl | rfl <;> assumption) (by simp)]
  rfl

/-- The JSON form of a non-negative `int64`. -/
theorem jsonInt64_natCast (n : Nat) :
    jsonInt64 (n : Int) = JSON.number { neg := false, coeff := n, exp10 := 0 } := by
  simp [jsonInt64]

end jwt

namespace usecase

/-- A token issued by `Login` is accepted by `ParseToken` before its expiry, and the id
returned is `uint` of the `float64` the `sub` number is read as. -/
theorem parseToken_issued {σ : Type} (L : jwt.Lib) (T : Target) (u : authUsecase σ)
    (user : User) (iat exp : Nat) (now : Int) (sub : Float64)
    (hrb : ReadsBack L u.jwtKey user iat exp)
    (hsub : parseFloat64 { neg := false, coeff := user.ID, exp10 := 0 } = some sub)
    (hiat : iat < 2 ^ 53) (hexp0 : 0 < exp) (hexp : exp < 2 ^ 53)
    (hnow : now < (exp : Int) * 1000000000) :
    u.ParseToken L T now (issued L u.jwtKey user iat exp) = (uintOfFloat64 T sub, none) := by
  obtain ⟨h1, h2, h3, h4, h5, h6, h7, h8⟩ := hrb
  obtain ⟨fe, hfe, hfeneg, hfetr, hfem⟩ := parseFloat64_exact exp hexp
  obtain ⟨fi, hfi, -, -, -⟩ := parseFloat64_exact iat hiat
  rw [jwt.jsonInt64_natCast] at h3 h4 h7
  rw [jwt.jsonInt64_natCast] at h3 h4 h7
  have hsi : signingInput L user iat exp =
      L.EncodeSegment (L.Marshal [("alg", JSON.string "HS256"), ("typ", JSON.string "JWT")]) ++
        "." ++
      L.EncodeSegment (L.Marshal [("email", JSON.string user.Email),
        ("exp", JSON.number { neg := false, coeff := exp, exp10 := 0 }),
        ("iat", JSON.number { neg := false, coeff := iat, exp10 := 0 }),
        ("sub", jsonUint user.ID)]) := by
    simp [signingInput, jwt.jsonInt64_natCast]
  rw [hsi] at h5 h8
  have hsplit := jwt.splitDots_three _ _ _ h6 h7 h8
  have hd0 : jwt.decodeMap L
      (L.EncodeSegment (L.Marshal [("alg", JSON.string "HS256"), ("typ", JSON.string "JWT")])) =
      some [("alg", Value.string "HS256"), ("typ", Value.string "JWT")] := by
    simp [jwt.decodeMap, h1, h2, decodeObject, decodeValue]
  have hd1 : jwt.decodeMap L (L.EncodeSegment (L.Marshal [("email", JSON.string user.Email),
        ("exp", JSON.number { neg := false, coeff := exp, exp10 := 0 }),
        ("iat", JSON.number { neg := false, coeff := iat, exp10 := 0 }),
        ("sub", jsonUint user.ID)])) =
      some [("email", Value.string user.Email), ("exp", Value.float64 fe),
        ("iat", Value.float64 fi), ("sub", Value.float64 sub)] := by
    unfold jwt.decodeMap
    rw [h3, Option.some_bind, h4, Option.some_bind]
    simp [decodeObject, decodeValue, hfe, hfi, jsonUint, hsub]
  have hmant : fe.mant ≠ 0 := by
    intro hm
    have := hfem.1 hm
    omega
  have hsec : jwt.numericDateSeconds T fe = (exp : Int) := by
    unfold jwt.numericDateSeconds Float64.floor
    rw [hfetr, if_pos (by omega)]
    simp [hfeneg, hfetr]
  have hval : jwt.Validate T now [("email", Value.string user.Email), ("exp", Value.float64 fe),
        ("iat", Value.float64 fi), ("sub", Value.float64 sub)] = none := by
    simp [jwt.Validate, jwt.verifyExpiresAt, jwt.verifyNotBefore, jwt.parseNumericDate, index,
      List.lookup, hmant, hsec, hnow]
  have hm : jwt.GetSigningMethod "HS256" = some (jwt.SigningMethod.HMAC jwt.Hash.SHA256) := by
    decide
  unfold issued
  rw [hsi]
  simp [authUsecase.ParseToken, jwt.Parse, hsplit, hd0, hd1, index, List.lookup, hm, h5,
    jwt.verifyDecoded, authUsecase.keyFunc, jwt.SigningMethod.Verify, hval]

end usecase

namespace usecase

/-- Login at `now`, then ParseToken at `later`, before the expiry: the token is accepted
and the id returned is `uint` of the `float64` that the decimal form of the stored id
is read as. -/
theorem login_then_parseToken {σ : Type} (getenv : String → String) (repo : UserRepository σ)
    (bc : Bcrypt) (L : jwt.Lib) (T : Target) (email password : String) (now later : Int)
    (w : World σ) (user : User) (sub : Float64)
    (h : repo.GetByEmail email w.store = (some user, none))
    (hp : bc.CompareHashAndPassword user.PasswordHash password = none)
    (hsub : parseFloat64 { neg := false, coeff := user.ID, exp10 := 0 } = some sub)
    (hnow : 0 ≤ now) (hrange : Unix now + 86400 < 2 ^ 53)
    (hlater : later < (Unix now + 86400) * 1000000000)
    (hrb : ReadsBack L (NewAuthUsecase getenv repo).jwtKey user (Unix now) (Unix now + 86400)) :
    ∃ tokenStr,
      ((NewAuthUsecase getenv repo).Login bc L email password now w).1 =
        Outcome.returned (tokenStr, none) ∧
      (NewAuthUsecase getenv repo).ParseToken L T later tokenStr = (uintOfFloat64 T sub, none) := by
  have hs := login_success bc L (NewAuthUsecase getenv repo) email password now w user h hp
  have httl : (NewAuthUsecase getenv repo).ttl = 24 * Hour := rfl
  rw [httl, unix_add_day] at hs
  refine ⟨_, by rw [hs], ?_⟩
  have hu : 0 ≤ Unix now := by unfold Unix; omega
  obtain ⟨iat, hiat⟩ : ∃ iat : Nat, Unix now = (iat : Int) := ⟨(Unix now).toNat, by omega⟩
  have hexp : Unix now + 86400 = ((iat + 86400 : Nat) : Int) := by rw [hiat]; push_cast; rfl
  rw [hexp] at hrb hlater hrange ⊢
  rw [hiat] at hrb ⊢
  have h53 : (2 : Int) ^ 53 = ((2 ^ 53 : Nat) : Int) := by norm_num
  rw [h53] at hrange
  have hr : iat + 86400 < 2 ^ 53 := by exact_mod_cast hrange
  exact parseToken_issued L T (NewAuthUsecase getenv repo) user iat (iat + 86400) later sub hrb
    hsub (by omega) (by omega) hr hlater

/-- Login followed by ParseToken returns the user's id when the id is below `2^53`. -/
theorem login_then_parseToken_small {σ : Type} (getenv : String → String)
    (repo : UserRepository σ) (bc : Bcrypt) (L : jwt.Lib) (T : Target) (email password : String)
    (now later : Int) (w : World σ) (user : User)
    (h : repo.GetByEmail email w.store = (some user, none))
    (hp : bc.CompareHashAndPassword user.PasswordHash password = none)
    (hid : user.ID < 2 ^ 53)
    (hnow : 0 ≤ now) (hrange : Unix now + 86400 < 2 ^ 53)
    (hlater : later < (Unix now + 86400) * 1000000000)
    (hrb : ReadsBack L (NewAuthUsecase getenv repo).jwtKey user (Unix now) (Unix now + 86400)) :
    ∃ tokenStr,
      ((NewAuthUsecase getenv repo).Login bc L email password now w).1 =
        Outcome.returned (tokenStr, none) ∧
      (NewAuthUsecase getenv repo).ParseToken L T later tokenStr = (user.ID, none) := by
  obtain ⟨sub, hsub, hu⟩ := uint_parseFloat64_exact T user.ID hid
  obtain ⟨tokenStr, h1, h2⟩ := login_then_parseToken getenv repo bc L T email password now later w
    user sub h hp hsub hnow hrange hlater hrb
  exact ⟨tokenStr, h1, by rw [h2, hu]⟩

/-- C1, as the code behaves: for a stored user whose id is `2^53 + 1`, the token that
`Login` returns is accepted by `ParseToken` before expiry, and the id `ParseToken`
returns is `2^53`, not the user's id. -/
theorem login_then_parseToken_large {σ : Type} (getenv : String → String)
    (repo : UserRepository σ) (bc : Bcrypt) (L : jwt.Lib) (T : Target) (email password : String)
    (now later : Int) (w : World σ) (user : User)
    (h : repo.GetByEmail email w.store = (some user, none))
    (hp : bc.CompareHashAndPassword user.PasswordHash password = none)
    (hid : user.ID = 9007199254740993)
    (hnow : 0 ≤ now) (hrange : Unix now + 86400 < 2 ^ 53)
    (hlater : later < (Unix now + 86400) * 1000000000)
    (hrb : ReadsBack L (NewAuthUsecase getenv repo).jwtKey user (Unix now) (Unix now + 86400)) :
    ∃ tokenStr,
      ((NewAuthUsecase getenv repo).Login bc L email password now w).1 =
        Outcome.returned (tokenStr, none) ∧
      (NewAuthUsecase getenv repo).ParseToken L T later tokenStr = (9007199254740992, none) ∧
      (9007199254740992 : Nat) ≠ user.ID := by
  have hsub : parseFloat64 { neg := false, coeff := user.ID, exp10 := 0 } =
      some { neg := false, mant := 4503599627370496, exp := 1 } := by
    rw [hid]; decide
  obtain ⟨tokenStr, h1, h2⟩ := login_then_parseToken getenv repo bc L T email password now later w
    user _ h hp hsub hnow hrange hlater hrb
  refine ⟨tokenStr, h1, ?_, by omega⟩
  rw [h2]
  simp [uintOfFloat64, Float64.truncAbs]

/-- Worked instance of C1: `bigUser`, whose id is `2^53 + 1`, logs in at second 5 and
the token is parsed at second 6. -/
theorem login_then_parseToken_large_witness :
    ∃ tokenStr,
      ((NewAuthUsecase (fun _ => "") store.repo).Login sample.plainBcrypt sample.lib "big@x.com"
          "secret1" 5000000007 ⟨sample.bigStore, []⟩).1 = Outcome.returned (tokenStr, none) ∧
      (NewAuthUsecase (fun _ => "") store.repo).ParseToken sample.lib sample.zeroTarget
          6000000000 tokenStr = (9007199254740992, none) ∧
      (9007199254740992 : Nat) ≠ sample.bigUser.ID :=
  login_then_parseToken_large (fun _ => "") store.repo sample.plainBcrypt sample.lib
    sample.zeroTarget "big@x.com" "secret1" 5000000007 6000000000 ⟨sample.bigStore, []⟩
    sample.bigUser (by decide) (by decide) (by decide) (by decide) (by decide) (by decide)
    (by decide)

end usecase

/-! ## The bearer-token middleware -/

namespace strings

/-- A string with a given prefix is the prefix followed by the string trimmed. -/
theorem append_trimPrefix (s pre : String) (h : HasPrefix s pre = true) :
    s = pre ++ TrimPrefix s pre := by
  unfold TrimPrefix
  rw [if_pos h]
  unfold HasPrefix at h
  obtain ⟨t, ht⟩ := List.isPrefixOf_iff_prefix.1 h
  apply String.ext
  rw [String.data_append, ← ht]
  simp

end strings

namespace httpdelivery

/-- C10. The handler calls `c.Next()` exactly when the `Authorization` header starts
with `"Bearer "` and `ParseToken` succeeds on the rest of the header; then `user_id`
holds the id `ParseToken` returned and nothing is written to the response. Without the
prefix the request is aborted with status 401 and `ParseToken` is not called; when
`ParseToken` fails the request is aborted with status 401; in both cases the keys of
the context are left as they were. -/
theorem authMiddleware_gate (uc : AuthUsecase) (c : Context) :
    (Call.Next ∈ (AuthMiddleware uc c).calls.drop c.calls.length ↔
      (strings.HasPrefix (c.GetHeader "Authorization") "Bearer " = true ∧
        (uc.ParseToken (strings.TrimPrefix (c.GetHeader "Authorization") "Bearer ")).2 = none)) ∧
    (strings.HasPrefix (c.GetHeader "Authorization") "Bearer " = true →
      c.GetHeader "Authorization" =
        "Bearer " ++ strings.TrimPrefix (c.GetHeader "Authorization") "Bearer ") ∧
    (strings.HasPrefix (c.GetHeader "Authorization") "Bearer " = true →
      (uc.ParseToken (strings.TrimPrefix (c.GetHeader "Authorization") "Bearer ")).2 = none →
      (AuthMiddleware uc c).Get "user_id" =
        some (uc.ParseToken (strings.TrimPrefix (c.GetHeader "Authorization") "Bearer ")).1 ∧
      (AuthMiddleware uc c).calls = c.calls ++
        [Call.ParseToken (strings.TrimPrefix (c.GetHeader "Authorization") "Bearer "),
          Call.Next] ∧
      (AuthMiddleware uc c).aborted = c.aborted ∧
      (AuthMiddleware uc c).status = c.status ∧
      (AuthMiddleware uc c).body = c.body) ∧
    (strings.HasPrefix (c.GetHeader "Authorization") "Bearer " = false →
      AuthMiddleware uc c =
        { c with aborted := true, status := some 401,
                 body := some ("error", "missing or invalid Authorization header") }) ∧
    (strings.HasPrefix (c.GetHeader "Authorization") "Bearer " = true →
      (uc.ParseToken (strings.TrimPrefix (c.GetHeader "Authorization") "Bearer ")).2 ≠ none →
      AuthMiddleware uc c =
        { c with aborted := true, status := some 401, body := some ("error", "invalid token"),
                 calls := c.calls ++ [Call.ParseToken
                   (strings.TrimPrefix (c.GetHeader "Authorization") "Bearer ")] }) := by
  refine ⟨?_, fun h => strings.append_trimPrefix _ _ h, ?_, ?_, ?_⟩
  · cases hp : strings.HasPrefix (c.GetHeader "Authorization") "Bearer " with
    | false =>
      simp [AuthMiddleware, hp, Context.AbortWithStatusJSON]
    | true =>
      cases he : (uc.ParseToken
          (strings.TrimPrefix (c.GetHeader "Authorization") "Bearer ")).2 with
      | none =>
        simp [AuthMiddleware, hp, he, Context.Set, Context.Next]
      | some err =>
        simp [AuthMiddleware, hp, he, Context.AbortWithStatusJSON]
  · intro hp he
    simp [AuthMiddleware, hp, he, Context.Set, Context.Next, Context.Get, List.lookup]
  · intro hp
    simp [AuthMiddleware, hp, Context.AbortWithStatusJSON, StatusUnauthorized]
  · intro hp he
    cases he2 : (uc.ParseToken
        (strings.TrimPrefix (c.GetHeader "Authorization") "Bearer ")).2 with
    | none => exact absurd he2 he
    | some err =>
      simp [AuthMiddleware, hp, he2, Context.AbortWithStatusJSON, StatusUnauthorized]

/-- Worked instance of C10: a request with a valid bearer token reaches the next
handler with `user_id` 1; a request with the token alone, without the prefix, is
aborted with 401 before any call of `ParseToken`. -/
theorem authMiddleware_gate_witness :
    (AuthMiddleware (ofUsecase sample.lib sample.zeroTarget sample.uc 6000000000)
        (sample.request "Bearer h.a.dev-secret-key/h+a")).Get "user_id" = some 1 ∧
    AuthMiddleware (ofUsecase sample.lib sample.zeroTarget sample.uc 6000000000)
        (sample.request "h.a.dev-secret-key/h+a") =
      { sample.request "h.a.dev-secret-key/h+a" with
          aborted := true, status := some 401,
          body := some ("error", "missing or invalid Authorization header") } :=
  ⟨((authMiddleware_gate (ofUsecase sample.lib sample.zeroTarget sample.uc 6000000000)
      (sample.request "Bearer h.a.dev-secret-key/h+a")).2.2.1 (by decide) (by decide)).1,
   (authMiddleware_gate (ofUsecase sample.lib sample.zeroTarget sample.uc 6000000000)
      (sample.request "h.a.dev-secret-key/h+a")).2.2.2.1 (by decide)⟩

end httpdelivery

end GoTutorial
